import Mathlib

set_option autoImplicit false

/-!
# slpm: a shallow embedding of the derivation pipeline

The development follows `slpm.cpp` and `mylibc.c`.

Conventions of the embedding.

* A byte is a natural number; a byte buffer is a `List Nat`.
* A `const char*` is the list of the bytes found from the pointer on.  Reading
  at or past the end of the list yields the terminator `0`, so a list without
  a zero byte is a C string as it stands; in general the C string is `cstr s`,
  the bytes before the first zero.  Advancing the pointer is
  `List.drop`/`List.tail`.
* `char` is signed (`schar`), as on the Linux targets the program is written
  for; only order comparisons depend on it.
* String literals of the program are written as Lean string literals and
  turned into bytes by `lit`.
* Assertions are taken to be compiled in.  A failing `assert` and a modulus by
  zero are explicit: fallible code returns `Except Fault _`.
* The headers `buffer.h`, `fd.h`, `utils.h` and `ssh-agent.h` are not among the
  sources.  `Buffer` and `writes` are modelled as appending and writing bytes
  (no capacity limit); libsodium, the ssh agent and `to_base64` are
  parameters, collected in `Extern`.
* Line input (`mygetstring` and its callers) is represented by its results:
  the passphrase and the list of lines that the successive calls return.
* Every external call and every write is recorded as an `Event`, in order.
* Zeroing leaves no event.  The content of the secret buffers is followed by
  `write_passwords_for_site_mem` (the array `seed`) and `main_mem` (the bytes
  at `pw` and the array `key`), which repeat the functions with that state and
  show the same events.  An array that is declared without an initial value
  holds an arbitrary content, given as an argument.
* An `int` is 32 bits wide and wraps (`int32`).
-/

namespace Slpm

/-- Byte buffers and C strings. -/
abbrev Bytes := List Nat

/-- The bytes of a string literal of the program (ASCII). -/
def lit (s : String) : Bytes := s.toList.map Char.toNat

/-- Ways in which the program can stop abnormally. -/
inductive Fault where
  /-- The failing `assert(!"invalid template")` of `lookup_pass_chars`. -/
  | invalid_template
  /-- The failing `assert(seed.size() > 1 + j)` of `output_site_generic`. -/
  | seed_index
  /-- The failing `assert(seed.size() >= crypto_sign_ed25519_SEEDBYTES)` of
  `output_site_ssh`. -/
  | seed_size
  /-- A modulus by zero (`% count` or `% len`). -/
  | div_by_zero
  deriving DecidableEq, Repr

deriving instance DecidableEq for Except

/-! ## `mylibc.c` -/

/-- The byte a C string pointer points at: `*s`. -/
def deref (s : Bytes) : Nat := s.headD 0

/-- The value of a byte read through `char` (signed, 8 bits). -/
def schar (b : Nat) : Int :=
  if b % 256 < 128 then ((b % 256 : Nat) : Int) else ((b % 256 : Nat) : Int) - 256

/-- The `strlen` of `mylibc.c`: `while (*p) ++p; return p - s;`. -/
def strlen : Bytes → Nat
  | [] => 0
  | c :: s => if c = 0 then 0 else strlen s + 1

/-- The `strncmp` of `mylibc.c`:
`for (; n && (*s1 || *s2); ++s1, ++s2, --n) { ... } return 0;`. -/
def strncmp : Bytes → Bytes → Nat → Int
  | _, _, 0 => 0
  | s1, s2, n + 1 =>
    if deref s1 = 0 ∧ deref s2 = 0 then 0
    else if (deref s1 = 0) ≠ (deref s2 = 0) then (if deref s2 ≠ 0 then -1 else 1)
    else if schar (deref s1) < schar (deref s2) then -1
    else if schar (deref s2) < schar (deref s1) then 1
    else strncmp s1.tail s2.tail n

/-- The C string a pointer designates: the bytes before the first NUL. -/
def cstr (s : Bytes) : Bytes := s.take (strlen s)

/-- The `getenv` of `mylibc.c`, over the null-terminated vector `environ`;
`none` is the null pointer. -/
def getenv (environ : List Bytes) (name : Bytes) : Option Bytes :=
  match environ with
  | [] => none
  | e :: rest =>
    if strncmp e name (strlen name) = 0 ∧ e.getD (strlen name) 0 = '='.toNat then
      some (e.drop (strlen name + 1))
    else getenv rest name

/-! ## The character classes and the template catalog -/

/-- The character class of a template symbol; `none` is the failing
`assert(!"invalid template")`. -/
def lookup_pass_chars (templat : Char) : Option String :=
  match templat with
  | 'V' => some "AEIOU"
  | 'C' => some "BCDFGHJKLMNPQRSTVWXYZ"
  | 'v' => some "aeiou"
  | 'c' => some "bcdfghjklmnpqrstvwxyz"
  | 'A' => some "AEIOUBCDFGHJKLMNPQRSTVWXYZ"
  | 'a' => some "AEIOUaeiouBCDFGHJKLMNPQRSTVWXYZbcdfghjklmnpqrstvwxyz"
  | 'n' => some "0123456789"
  | 'o' => some "@&%?,=[]_:-+*$#!'^~;()/."
  | 'x' => some "AEIOUaeiouBCDFGHJKLMNPQRSTVWXYZbcdfghjklmnpqrstvwxyz0123456789!@#$%^&*()"
  | _ => none

def temp_max_sec : List String :=
  [ "anoxxxxxxxxxxxxxxxxx"
  , "axxxxxxxxxxxxxxxxxno" ]

def temp_long : List String :=
  [ "CvcvnoCvcvCvcv"
  , "CvcvCvcvnoCvcv"
  , "CvcvCvcvCvcvno"
  , "CvccnoCvcvCvcv"
  , "CvccCvcvnoCvcv"
  , "CvccCvcvCvcvno"
  , "CvcvnoCvccCvcv"
  , "CvcvCvccnoCvcv"
  , "CvcvCvccCvcvno"
  , "CvcvnoCvcvCvcc"
  , "CvcvCvcvnoCvcc"
  , "CvcvCvcvCvccno"
  , "CvccnoCvccCvcv"
  , "CvccCvccnoCvcv"
  , "CvccCvccCvcvno"
  , "CvcvnoCvccCvcc"
  , "CvcvCvccnoCvcc"
  , "CvcvCvccCvccno"
  , "CvccnoCvcvCvcc"
  , "CvccCvcvnoCvcc"
  , "CvccCvcvCvccno" ]

def temp_medium : List String :=
  [ "CvcnoCvc"
  , "CvcCvcno" ]

def temp_short : List String :=
  [ "Cvcn" ]

def temp_basic : List String :=
  [ "aaanaaan"
  , "aannaaan"
  , "aaannaaa" ]

def temp_pin : List String :=
  [ "nnnn" ]

/-- One entry of the table `templates`: a name and its array of patterns. -/
structure Template where
  name : String
  templat : List String
  deriving DecidableEq, Repr

/-- The field `count`, which `DEF_TEMP` initialises with `COUNT(t)`. -/
def Template.count (t : Template) : Nat := t.templat.length

/-- The initialiser `DEF_TEMP(name, t)`. -/
def DEF_TEMP (name : String) (t : List String) : Template := ⟨name, t⟩

def templates : List Template :=
  [ DEF_TEMP "Maximum Security Password" temp_max_sec
  , DEF_TEMP "Long Password" temp_long
  , DEF_TEMP "Medium Password" temp_medium
  , DEF_TEMP "Short Password" temp_short
  , DEF_TEMP "Basic Password" temp_basic
  , DEF_TEMP "PIN" temp_pin ]

/-- The width of an HMAC-SHA256 tag, `crypto_auth_hmacsha256_BYTES`. -/
def crypto_auth_hmacsha256_BYTES : Nat := 32

/-! ## Buffers -/

/-- Modelled from the spec: the class `Buffer<T, N>` of `buffer.h`, which is
not among the sources.  A buffer holds the bytes appended so far, in order;
the capacity `N` is not modelled. -/
abbrev Buffer := Bytes

/-- Modelled from the spec: `buf += s` for a C string `s` (`buffer.h` is
missing); the characters of `s` are appended, the terminator is not. -/
def Buffer.add_str (buf : Buffer) (s : Bytes) : Buffer := buf ++ cstr s

/-- Modelled from the spec: `buf += c` for a single character (`buffer.h` is
missing). -/
def Buffer.add_char (buf : Buffer) (c : Nat) : Buffer := buf ++ [c]

/-- Modelled from the spec: the "4-byte big-endian" encoding that the
operations of `Buffer` use (`buffer.h` is missing): the four bytes of a 32-bit
value, most significant first. -/
def be32 (n : Nat) : Bytes := [n / 2 ^ 24 % 256, n / 2 ^ 16 % 256, n / 2 ^ 8 % 256, n % 256]

/-- Modelled from the spec: `Buffer::append_with_be32_length_prefix(const char*)`
(`buffer.h` is missing): "with a 4-byte big-endian length prefix". -/
def Buffer.append_with_be32_length_prefix (buf : Buffer) (s : Bytes) : Buffer :=
  buf ++ be32 (strlen s) ++ cstr s

/-- Modelled from the spec: `Buffer::append_with_be32_length_prefix(const char*, size_t)`
(`buffer.h` is missing), for `n` bytes of binary data. -/
def Buffer.append_with_be32_length_prefix_n (buf : Buffer) (data : Bytes) (n : Nat) : Buffer :=
  buf ++ be32 n ++ data.take n

/-- Modelled from the spec: `Buffer::append_network_long(int)` (`buffer.h` is
missing): "the counter encoded as a 4-byte big-endian (network-order)
integer"; the `int` is taken modulo `2 ^ 32`. -/
def Buffer.append_network_long (buf : Buffer) (v : Int) : Buffer :=
  buf ++ be32 (v % 2 ^ 32).toNat

/-! ## Events -/

/-- What the program does to the outside world, in order. -/
inductive Event where
  /-- A `write` of the bytes to a file descriptor. -/
  | write (fd : Nat) (data : Bytes)
  /-- The prompt written by `mygetstring` before it reads a line. -/
  | prompt (text : Bytes)
  /-- The call `crypto_pwhash_scryptsalsa208sha256_ll(passwd, salt, N, r, p, buf, buflen)`. -/
  | scrypt (passwd salt : Bytes) (N r p buflen : Nat)
  /-- The call `hmacsha256(out, in, inlen, k, klen)`. -/
  | hmac (msg key : Bytes)
  /-- The call `sa.add(k, comment)`. -/
  | agent_add (pub sec comment : Bytes)
  deriving DecidableEq, Repr

/-! ## `output_site_generic` -/

/-- The array type `Seed`; `seed.size()` is the length of the list. -/
abbrev Seed := Bytes

/-- The inner loop of `output_site_generic`,
`for (unsigned j = 0; templat[j]; ++j) { ... }`, entered at index `j` with the
symbols `templat[j..]` still to be read. -/
def pass_loop (seed : Seed) : List Char → Nat → Buffer → Except Fault Buffer
  | [], _, buf => .ok buf
  | t :: rest, j, buf =>
    match lookup_pass_chars t with
    | none => .error .invalid_template
    | some pass_chars =>
      let len := strlen (lit pass_chars)
      if ¬ (seed.length > 1 + j) then .error .seed_index
      else if len = 0 then .error .div_by_zero
      else pass_loop seed rest (j + 1)
        (buf.add_char ((lit pass_chars).getD (seed.getD (1 + j) 0 % len) 0))

/-- The pattern `templates[i].templat[seed[0] % templates[i].count]`. -/
def select_templat (seed : Seed) (t : Template) : String :=
  t.templat.getD (seed.getD 0 0 % t.count) ""

/-- The outer loop of `output_site_generic` over the remaining entries of a
catalog, `for (unsigned i = 0; i != COUNT(templates); ++i) { ... }`. -/
def template_loop (seed : Seed) : List Template → Buffer → Except Fault Buffer
  | [], buf => .ok buf
  | t :: rest, buf =>
    let buf := (buf.add_str (lit t.name)).add_str (lit ": ")
    if t.count = 0 then .error .div_by_zero
    else
      match pass_loop seed (select_templat seed t).toList 0 buf with
      | .error f => .error f
      | .ok buf => template_loop seed rest (buf.add_char '\n'.toNat)

/-- The body of `output_site_generic` for an arbitrary catalog: what is
written to standard output, or the fault that stops the program. -/
def output_site_generic_with (catalog : List Template) (seed : Seed) : Except Fault (List Event) :=
  match template_loop seed catalog [] with
  | .error f => .error f
  | .ok buf => .ok [Event.write 1 buf]

/-- The function `output_site_generic` over the compiled-in table `templates`. -/
def output_site_generic (seed : Seed) : Except Fault (List Event) :=
  output_site_generic_with templates seed

/-! ## External collaborators -/

/-- The functions the program calls but does not define: libsodium, the ssh
agent and the base64 helper of `utils.h`.  A return code is an integer, zero
meaning success. -/
structure Extern where
  /-- The return code of `crypto_auth_hmacsha256_init(&state, k, klen)`. -/
  hmacsha256_init : (k : Bytes) → Int
  /-- The return code of `crypto_auth_hmacsha256_update(&state, in, inlen)`. -/
  hmacsha256_update : (k inp : Bytes) → Int
  /-- The return code of `crypto_auth_hmacsha256_final(&state, out)` and the tag. -/
  hmacsha256_final : (k inp : Bytes) → Int × Bytes
  /-- The call `crypto_pwhash_scryptsalsa208sha256_ll`: its return code and the derived key. -/
  scrypt : (passwd salt : Bytes) → (N r p buflen : Nat) → Int × Bytes
  /-- The call `crypto_sign_ed25519_seed_keypair`: the public and the secret key. -/
  seed_keypair : (seed : Bytes) → Bytes × Bytes
  /-- The call `sa.add(k, comment)`: `true` when it reports an error. -/
  agent_add : (pub sec comment : Bytes) → Bool
  /-- The text `to_base64` leaves in its output array. -/
  to_base64 : (data : Bytes) → Bytes

/-- The wrapper `hmacsha256`: the return code, or the tag. -/
def hmacsha256 (x : Extern) (inp k : Bytes) : Except Int Bytes :=
  if x.hmacsha256_init k ≠ 0 then .error (-1)
  else if x.hmacsha256_update k inp ≠ 0 then .error (-2)
  else if (x.hmacsha256_final k inp).1 ≠ 0 then .error (-3)
  else .ok (x.hmacsha256_final k inp).2

/-- The events of a call, and the fault that ended it, if any. -/
structure Run where
  events : List Event
  fault : Option Fault
  deriving DecidableEq, Repr

/-! ## `output_site_ssh` -/

/-- The constant `crypto_sign_ed25519_SEEDBYTES`. -/
def crypto_sign_ed25519_SEEDBYTES : Nat := 32

/-- The function `append(result, pk)`: the base64 text of the length-prefixed
algorithm name and public key is appended to `result`. -/
def append (x : Extern) (result : Buffer) (pk : Bytes) : Buffer :=
  let buf : Buffer := []
  let buf := buf.append_with_be32_length_prefix (lit "ssh-ed25519")
  let buf := buf.append_with_be32_length_prefix_n pk pk.length
  result.add_str (x.to_base64 buf)

/-- The function `output_site_ssh(sa, seed, site)`. -/
def output_site_ssh (x : Extern) (environ : List Bytes) (seed : Seed) (site : Bytes) : Run :=
  if ¬ (seed.length ≥ crypto_sign_ed25519_SEEDBYTES) then ⟨[], some .seed_size⟩
  else
    let k := x.seed_keypair seed
    let comment : Buffer := []
    let comment := comment.add_str (lit "slpm+")
    let comment := comment.add_str site
    let comment := comment.add_char 0
    let error := x.agent_add k.1 k.2 (cstr comment)
    if ¬ error then
      let buf : Buffer := []
      let buf := buf.add_str (lit "ssh-ed25519")
      let buf := buf.add_char ' '.toNat
      let buf := append x buf k.1
      let buf := buf.add_char ' '.toNat
      let user := getenv environ (lit "USER")
      let buf := buf.add_str (match user with | some u => u | none => lit "user")
      let buf := buf.add_char '@'.toNat
      let buf := buf.add_str (lit "slpm+")
      let buf := buf.add_str site
      let buf := buf.add_char '\n'.toNat
      ⟨[Event.agent_add k.1 k.2 (cstr comment), Event.write 1 buf], none⟩
    else ⟨[Event.agent_add k.1 k.2 (cstr comment)], none⟩

/-! ## `write_passwords_for_site` -/

/-- The constant `iv`. -/
def iv : String := "com.lyndir.masterpassword"

/-- The routing test `!strncmp(site, "ssh ", 4)`. -/
def is_ssh (site : Bytes) : Bool := strncmp site (lit "ssh ") 4 = 0

/-- The site pointer after `if (is_ssh) site += 4;`. -/
def site_name (site : Bytes) : Bytes := if is_ssh site then site.drop 4 else site

/-- Modelled from the spec: the helper `writes(fd, s)`, whose header is
missing: the C string `s` is written to the descriptor `fd`. -/
def writes (fd : Nat) (s : Bytes) : Event := Event.write fd (cstr s)

/-- The function `write_passwords_for_site`, for an arbitrary catalog. -/
def write_passwords_for_site_with (catalog : List Template) (x : Extern) (environ : List Bytes)
    (key : Bytes) (site : Bytes) (counter : Int) : Run :=
  let ssh := is_ssh site
  let site := if ssh then site.drop 4 else site
  let buf : Buffer := []
  let buf := buf.add_str (lit iv)
  let buf := buf.append_with_be32_length_prefix site
  let buf := buf.append_network_long counter
  match hmacsha256 x buf key with
  | .error _ => ⟨[Event.hmac buf key, writes 2 (lit "hmac fail\n")], none⟩
  | .ok seed =>
    if ssh then
      let r := output_site_ssh x environ seed site
      ⟨Event.hmac buf key :: r.events, r.fault⟩
    else
      match output_site_generic_with catalog seed with
      | .error f => ⟨[Event.hmac buf key], some f⟩
      | .ok out => ⟨Event.hmac buf key :: out, none⟩

/-- The function `write_passwords_for_site` over the compiled-in catalog. -/
def write_passwords_for_site (x : Extern) (environ : List Bytes)
    (key : Bytes) (site : Bytes) (counter : Int) : Run :=
  write_passwords_for_site_with templates x environ key site counter

/-! ## `main` -/

/-- The value of an `int`: 32 bits, two's complement, arithmetic wrapping. -/
def int32 (v : Int) : Int := (v + 2 ^ 31) % 2 ^ 32 - 2 ^ 31

/-- The loop of `atoi` in `mylibc.c`, entered with the accumulated `result`:
`for (; nptr && *nptr >= '0' && *nptr <= '9'; ++nptr) result = result * 10 + *nptr - '0';`.
Each operation of `(result * 10 + *nptr) - '0'` is an `int` operation. -/
def atoi_loop : Bytes → Int → Int
  | [], result => result
  | c :: nptr, result =>
    if 48 ≤ schar c ∧ schar c ≤ 57 then
      atoi_loop nptr (int32 (int32 (int32 (result * 10) + schar c) - 48))
    else result

/-- The `atoi` of `mylibc.c` on a non-null pointer. -/
def atoi (nptr : Bytes) : Int := atoi_loop nptr 0

/-- The `atoi` of `mylibc.c` on a pointer that may be null (`none`): the test
`nptr &&` then ends the loop before its first round. -/
def atoi_ptr : Option Bytes → Int
  | none => 0
  | some nptr => atoi nptr

/-- The `strncpy` of `mylibc.c`: `n` bytes are written, the characters of
`src` first, then zeros. -/
def strncpy (src : Bytes) (n : Nat) : Bytes :=
  (cstr src).take n ++ List.replicate (n - (cstr src).length) 0

/-- How `main` ends: with a return value, or aborted by a fault. -/
inductive Exit where
  | returned (code : Int)
  | aborted (f : Fault)
  deriving DecidableEq, Repr

/-- The query loop of `main`, `while (!0) { ... }`, followed by the tail of
`main`.  The list holds the lines that the successive calls of `getstring`
return; when it is exhausted `getstring` returns the null pointer.  The array
`site` holds the 255 bytes written by `strncpy`; its last byte, which is not
written, is taken to be zero. -/
def query_loop (catalog : List Template) (x : Extern) (environ : List Bytes) (key : Bytes) :
    List Bytes → List Event × Exit
  | [] =>
    ([Event.prompt (lit "Site: "), writes 1 (lit "\rBye!    \n")], .returned 0)
  | [_] =>
    ([Event.prompt (lit "Site: "), Event.prompt (lit "Counter: "),
      writes 1 (lit "\rBye!    \n")], .returned 0)
  | s :: c :: rest =>
    let site := strncpy s 255
    let r := write_passwords_for_site_with catalog x environ key site (atoi c)
    let pre := [Event.prompt (lit "Site: "), Event.prompt (lit "Counter: ")] ++ r.events
    match r.fault with
    | some f => (pre, .aborted f)
    | none =>
      let q := query_loop catalog x environ key rest
      (pre ++ q.1, q.2)

/-- The function `main`, for an arbitrary catalog.  The argument `pw` is what
the passphrase prompt returns (`none` for the null pointer) and `lines` are the
lines read afterwards. -/
def main_with (catalog : List Template) (x : Extern) (envp : List Bytes)
    (pw : Option Bytes) (lines : List Bytes) : List Event × Exit :=
  let salt := match getenv envp (lit "SLPM_FULLNAME") with | some v => v | none => lit ""
  let banner : Buffer := []
  let banner := banner.add_str (lit "SLPM_FULLNAME='")
  let banner := banner.add_str salt
  let banner := banner.add_str (lit "'\n")
  let buf : Buffer := []
  let buf := buf.add_str (lit iv)
  let buf := buf.append_with_be32_length_prefix salt
  let pre := [Event.write 1 banner, Event.prompt (lit "Passphrase: ")]
  match pw with
  | none => (pre ++ [writes 1 (lit "\n")], .returned (-1))
  | some pw =>
    let pre := pre ++ [writes 1 (lit "Deriving key..."),
      Event.scrypt (cstr pw) buf 32768 8 2 64]
    let r := x.scrypt (cstr pw) buf 32768 8 2 64
    if r.1 ≠ 0 then (pre ++ [writes 2 (lit "scrypt fail\n")], .returned (-1))
    else
      let q := query_loop catalog x envp r.2 lines
      (pre ++ [writes 1 (lit "\rKey derivation complete.\n")] ++ q.1, q.2)

/-- The function `main` over the compiled-in catalog. -/
def main (x : Extern) (envp : List Bytes) (pw : Option Bytes) (lines : List Bytes) :
    List Event × Exit :=
  main_with templates x envp pw lines

/-! ## Zeroing and comparing memory -/

/-- The loop `while (i < len) pnt_[i++] = 0U;` of `sodium_memzero`, run for at
most `fuel` tests of its condition: the memory from `pnt` on and the index `i`
when the loop is left, or `none` when the fuel does not suffice. -/
def sodium_memzero_loop : Nat → Bytes → Nat → Nat → Option (Bytes × Nat)
  | 0, _, _, _ => none
  | fuel + 1, pnt, len, i =>
    if i < len then sodium_memzero_loop fuel (pnt.set i 0) len (i + 1) else some (pnt, i)

/-- The function `sodium_memzero(pnt, len)`: the memory from `pnt` on after the
call.  The loop is left at the latest by the test number `len + 1`. -/
def sodium_memzero (pnt : Bytes) (len : Nat) : Bytes :=
  match sodium_memzero_loop (len + 1) pnt len 0 with
  | some (mem, _) => mem
  | none => pnt

/-- The loop `for (i = 0U; i < len; i++) d |= b1[i] ^ b2[i];` of
`sodium_memcmp`, run for at most `fuel` tests of its condition: the byte `d`
and the index `i` when the loop is left. -/
def sodium_memcmp_loop : Nat → Bytes → Bytes → Nat → Nat → Nat → Option (Nat × Nat)
  | 0, _, _, _, _, _ => none
  | fuel + 1, b1, b2, len, i, d =>
    if i < len then
      sodium_memcmp_loop fuel b1 b2 len (i + 1) ((d ||| (b1.getD i 0 ^^^ b2.getD i 0)) % 256)
    else some (d, i)

/-- The value `1 & v` for an `int` in two's complement: its lowest bit. -/
def and_one (v : Int) : Int := v % 2

/-- The result `(1 & ((d - 1) >> 8)) - 1` of `sodium_memcmp` for the byte `d`,
computed on `int` with an arithmetic right shift. -/
def sodium_memcmp_result (d : Nat) : Int := and_one (((d : Int) - 1) >>> 8) - 1

/-- The function `sodium_memcmp(b1_, b2_, len)`. -/
def sodium_memcmp (b1 b2 : Bytes) (len : Nat) : Int :=
  match sodium_memcmp_loop (len + 1) b1 b2 len 0 0 with
  | some (d, _) => sodium_memcmp_result d
  | none => sodium_memcmp_result 0

/-! ## The secret buffers -/

/-- The wrapper `hmacsha256` together with its output array: the return code
and the content of `out` after the call, `out` being its content before.  The
second component of `hmacsha256_final` is what that call leaves in `out`. -/
def hmacsha256_out (x : Extern) (out inp k : Bytes) : Int × Bytes :=
  if x.hmacsha256_init k ≠ 0 then (-1, out)
  else if x.hmacsha256_update k inp ≠ 0 then (-2, out)
  else if (x.hmacsha256_final k inp).1 ≠ 0 then (-3, (x.hmacsha256_final k inp).2)
  else (0, (x.hmacsha256_final k inp).2)

/-- The function `write_passwords_for_site` together with its local array
`seed`: the run, and the content of `seed` when the function is left.  The
argument `seed0` is the indeterminate content of the array at its declaration. -/
def write_passwords_for_site_mem (catalog : List Template) (x : Extern) (environ : List Bytes)
    (key : Bytes) (site : Bytes) (counter : Int) (seed0 : Bytes) : Run × Bytes :=
  let ssh := is_ssh site
  let site := if ssh then site.drop 4 else site
  let buf : Buffer := []
  let buf := buf.add_str (lit iv)
  let buf := buf.append_with_be32_length_prefix site
  let buf := buf.append_network_long counter
  let h := hmacsha256_out x seed0 buf key
  if h.1 ≠ 0 then
    (⟨[Event.hmac buf key, writes 2 (lit "hmac fail\n")], none⟩, h.2)
  else
    let seed := h.2
    if ssh then
      let r := output_site_ssh x environ seed site
      match r.fault with
      | some f => (⟨Event.hmac buf key :: r.events, some f⟩, seed)
      | none => (⟨Event.hmac buf key :: r.events, none⟩, sodium_memzero seed seed.length)
    else
      match output_site_generic_with catalog seed with
      | .error f => (⟨[Event.hmac buf key], some f⟩, seed)
      | .ok out => (⟨Event.hmac buf key :: out, none⟩, sodium_memzero seed seed.length)

/-- The secret buffers of `main`: the bytes at `pw` and the array `key`.  The
pointer `pw` points into the line buffer of `mygetstring`, which the next read
of a line reuses; from then on the bytes at `pw` are not followed (`none`). -/
structure Secrets where
  pw : Option Bytes
  key : Bytes
  deriving DecidableEq, Repr

/-- Events that occur while the secret buffers are in the state `s`. -/
def tag (s : Secrets) (es : List Event) : List (Event × Secrets) := es.map (fun e => (e, s))

/-- The query loop and the tail of `main` together with the secret buffers:
the events, each with the state of the buffers at that moment, how `main`
ends, and the state of the buffers then.  The loop is entered in the state
`s`; once `getstring` has been called the bytes at `pw` are not followed.
After the loop `main` calls `sodium_memzero(key, sizeof(key))`. -/
def query_loop_mem (catalog : List Template) (x : Extern) (environ : List Bytes) (s : Secrets) :
    List Bytes → List (Event × Secrets) × Exit × Secrets
  | [] =>
    ([(Event.prompt (lit "Site: "), s),
      (writes 1 (lit "\rBye!    \n"), ⟨none, sodium_memzero s.key 64⟩)],
      .returned 0, ⟨none, sodium_memzero s.key 64⟩)
  | [_] =>
    ([(Event.prompt (lit "Site: "), s),
      (Event.prompt (lit "Counter: "), ⟨none, s.key⟩),
      (writes 1 (lit "\rBye!    \n"), ⟨none, sodium_memzero s.key 64⟩)],
      .returned 0, ⟨none, sodium_memzero s.key 64⟩)
  | a :: c :: rest =>
    let site := strncpy a 255
    let r := write_passwords_for_site_with catalog x environ s.key site (atoi c)
    let pre := (Event.prompt (lit "Site: "), s)
      :: tag ⟨none, s.key⟩ (Event.prompt (lit "Counter: ") :: r.events)
    match r.fault with
    | some f => (pre, .aborted f, ⟨none, s.key⟩)
    | none =>
      let q := query_loop_mem catalog x environ ⟨none, s.key⟩ rest
      (pre ++ q.1, q.2)

/-- The part of `main` that follows the reading of the passphrase `pw`, from
`writes(1, "Deriving key...")` on, together with the secret buffers.  The
argument `key0` is the indeterminate content of the array `key` at its
declaration; the second component of `scrypt` is what the call leaves in it. -/
def main_mem (catalog : List Template) (x : Extern) (envp : List Bytes)
    (pw key0 : Bytes) (lines : List Bytes) : List (Event × Secrets) × Exit × Secrets :=
  let salt := match getenv envp (lit "SLPM_FULLNAME") with | some v => v | none => lit ""
  let buf : Buffer := []
  let buf := buf.add_str (lit iv)
  let buf := buf.append_with_be32_length_prefix salt
  let pre := tag ⟨some pw, key0⟩ [writes 1 (lit "Deriving key..."),
    Event.scrypt (cstr pw) buf 32768 8 2 64]
  let r := x.scrypt (cstr pw) buf 32768 8 2 64
  if r.1 ≠ 0 then
    (pre ++ tag ⟨some (sodium_memzero pw (strlen pw)), r.2⟩ [writes 2 (lit "scrypt fail\n")],
      .returned (-1), ⟨some (sodium_memzero pw (strlen pw)), r.2⟩)
  else
    let q := query_loop_mem catalog x envp ⟨some (sodium_memzero pw (strlen pw)), r.2⟩ lines
    (pre ++ tag ⟨some (sodium_memzero pw (strlen pw)), r.2⟩
        [writes 1 (lit "\rKey derivation complete.\n")] ++ q.1, q.2)

/-! ## Definitions used to state the properties -/

/-- The character the specification selects for the symbol `sym` at position
`j` of a pattern: `class[seed[1 + j] mod class.length]`. -/
def spec_char (seed : Seed) (j : Nat) (sym : Char) : Nat :=
  match lookup_pass_chars sym with
  | some cls => (lit cls).getD (seed.getD (1 + j) 0 % cls.length) 0
  | none => 0

/-- The password the specification prescribes for a pattern: one selected
character per symbol, in pattern order. -/
def spec_pattern_password (seed : Seed) (p : String) : Bytes :=
  (List.range p.length).map (fun j => spec_char seed j (p.toList.getD j ' '))

/-- The password the specification prescribes for a category: that of the
pattern `patterns[seed[0] mod patterns.length]`. -/
def spec_password (seed : Seed) (t : Template) : Bytes :=
  spec_pattern_password seed (t.templat.getD (seed.getD 0 0 % t.templat.length) "")

/-- The line of a category: its name, `": "`, its password, a newline. -/
def spec_line (seed : Seed) (t : Template) : Bytes :=
  lit t.name ++ lit ": " ++ spec_password seed t ++ lit "\n"

/-- A symbol is usable: it has a character class, which is a non-empty C string. -/
def symbol_ok (c : Char) : Bool :=
  match lookup_pass_chars c with
  | some cls => decide (strlen (lit cls) = cls.length) && decide (cls.length ≠ 0)
  | none => false

/-- A pattern is usable with a seed of `n` bytes. -/
def pattern_ok (n : Nat) (p : String) : Bool :=
  decide (p.length + 1 ≤ n) && p.toList.all symbol_ok

/-- A catalog entry is usable with a seed of `n` bytes. -/
def template_ok (n : Nat) (t : Template) : Bool :=
  decide (t.count ≠ 0) && decide (strlen (lit t.name) = (lit t.name).length)
    && t.templat.all (pattern_ok n)

/-- The message `write_passwords_for_site` builds for a site name and a
counter: `buf += iv`, the length-prefixed name, the counter. -/
def site_message (name : Bytes) (counter : Int) : Bytes :=
  let buf : Buffer := []
  let buf := buf.add_str (lit iv)
  let buf := buf.append_with_be32_length_prefix name
  buf.append_network_long counter

/-- The value that four bytes denote when read most significant first. -/
def be32_value : Bytes → Nat
  | [b0, b1, b2, b3] => b0 * 2 ^ 24 + b1 * 2 ^ 16 + b2 * 2 ^ 8 + b3
  | _ => 0

/-- An event is a call of the keyed hash. -/
def Event.is_hmac : Event → Bool
  | .hmac _ _ => true
  | _ => false

/-- An event is a call of scrypt. -/
def Event.is_scrypt : Event → Bool
  | .scrypt _ _ _ _ _ _ => true
  | _ => false

/-- The identity name `main` uses: `getenv("SLPM_FULLNAME")`, or `""` when that
is the null pointer. -/
def identity_name (envp : List Bytes) : Bytes :=
  match getenv envp (lit "SLPM_FULLNAME") with
  | some v => v
  | none => lit ""

/-- Stand-ins for the external functions, for evaluating the program on
concrete inputs: every call succeeds, the keyed hash returns `seed`, scrypt
returns zero bytes, the agent reports `agent_error`. -/
def sample_calls (seed : Bytes) (agent_error : Bool) : Extern where
  hmacsha256_init := fun _ => 0
  hmacsha256_update := fun _ _ => 0
  hmacsha256_final := fun _ _ => (0, seed)
  scrypt := fun _ _ _ _ _ buflen => (0, List.replicate buflen 0)
  seed_keypair := fun s => (s, s ++ s)
  agent_add := fun _ _ _ => agent_error
  to_base64 := fun d => d.map (fun b => 'A'.toNat + b % 26)

/-- The salt of the master key: the protocol identifier, then the identity
name with its four-byte big-endian length in front. -/
def master_salt (envp : List Bytes) : Bytes :=
  lit "com.lyndir.masterpassword" ++ be32 (strlen (identity_name envp))
    ++ cstr (identity_name envp)

/-- What `main` has done when the scrypt call returns, a passphrase `pw`
having been read. -/
def main_start (envp : List Bytes) (pw : Bytes) : List Event :=
  [Event.write 1 (lit "SLPM_FULLNAME='" ++ cstr (identity_name envp) ++ lit "'\n"),
    Event.prompt (lit "Passphrase: "),
    Event.write 1 (lit "Deriving key..."),
    Event.scrypt (cstr pw) (master_salt envp) 32768 8 2 64]

/-- The user name of the public line: `getenv("USER")`, or `"user"` when that
is the null pointer. -/
def user_name (environ : List Bytes) : Bytes :=
  match getenv environ (lit "USER") with
  | some u => u
  | none => lit "user"

/-- The public-identity line: the algorithm name, the base64 text of the
length-prefixed algorithm name and public key, and `<user>@slpm+<site>`. -/
def ssh_public_line (x : Extern) (environ : List Bytes) (pub site : Bytes) : Bytes :=
  lit "ssh-ed25519 "
    ++ cstr (x.to_base64 (be32 11 ++ lit "ssh-ed25519" ++ be32 pub.length ++ pub))
    ++ lit " " ++ cstr (user_name environ) ++ lit "@slpm+" ++ cstr site ++ lit "\n"

/-- A catalog in which one pattern has 40 symbols, more than a 32-byte seed
can serve, next to a pattern of the compiled-in catalog. -/
def long_catalog : List Template :=
  [ DEF_TEMP "PIN" ["nnnn", "nnnnnnnnnnnnnnnnnnnnnnnnnnnnnnnnnnnnnnnn"] ]

/-- Stand-ins for the external functions in which scrypt reports failure: it
returns -1 and leaves `key` in its output array.  The keyed hash is set to
report failure as well (`crypto_auth_hmacsha256_init` returns `init_rc`,
`crypto_auth_hmacsha256_final` returns -1 and leaves `tag` in its output
array), which the one of libsodium never does; a run of `main` that ends at
the failure of scrypt does not reach it. -/
def failing_calls (init_rc : Int) (tag key : Bytes) : Extern where
  hmacsha256_init := fun _ => init_rc
  hmacsha256_update := fun _ _ => 0
  hmacsha256_final := fun _ _ => (-1, tag)
  scrypt := fun _ _ _ _ _ _ => (-1, key)
  seed_keypair := fun s => (s, s ++ s)
  agent_add := fun _ _ _ => true
  to_base64 := fun d => d

/-- The OR of the XORs of the first `len` byte pairs of two buffers. -/
def or_of_xors (b1 b2 : Bytes) (len : Nat) : Nat :=
  (List.range len).foldl (fun d k => d ||| (b1.getD k 0 ^^^ b2.getD k 0)) 0

/-- A byte is one of the characters `'0'` to `'9'`. -/
def is_digit (c : Nat) : Bool := decide (48 ≤ c ∧ c ≤ 57)

/-- The number that a string of decimal digits denotes. -/
def decimal_value (digits : Bytes) : Nat :=
  digits.foldl (fun v c => v * 10 + (c - 48)) 0

/-! ## Properties -/

/-! ### C strings -/

theorem cstr_of_strlen (s : Bytes) (h : strlen s = s.length) : cstr s = s := by
  unfold cstr
  rw [h]
  exact List.take_length s

theorem strlen_le (s : Bytes) : strlen s ≤ s.length := by
  induction s with
  | nil => simp [strlen]
  | cons c s ih =>
    unfold strlen
    split
    · simp
    · simp only [List.length_cons]; omega

theorem strlen_of_nz (s : Bytes) (h : ∀ b ∈ s, b ≠ 0) : strlen s = s.length := by
  induction s with
  | nil => simp [strlen]
  | cons c s ih =>
    have hc : c ≠ 0 := h c (List.mem_cons_self _ _)
    have hs := ih (fun b hb => h b (List.mem_cons_of_mem _ hb))
    simp [strlen, hc, hs]

/-- A list without a zero byte is a C string as it stands. -/
theorem cstr_of_nz (s : Bytes) (h : ∀ b ∈ s, b ≠ 0) : cstr s = s :=
  cstr_of_strlen s (strlen_of_nz s h)

theorem cstr_nz (s : Bytes) : ∀ b ∈ cstr s, b ≠ 0 := by
  induction s with
  | nil => simp [cstr, strlen]
  | cons c s ih =>
    unfold cstr strlen
    split
    · simp
    · next hc =>
      intro b hb
      simp only [List.take_succ_cons, List.mem_cons] at hb
      rcases hb with rfl | hb
      · exact hc
      · exact ih b hb

theorem strlen_cstr (s : Bytes) : strlen (cstr s) = strlen s := by
  induction s with
  | nil => simp [cstr, strlen]
  | cons c s ih =>
    by_cases hc : c = 0
    · simp [cstr, strlen, hc]
    · have : cstr (c :: s) = c :: cstr s := by simp [cstr, strlen, hc]
      rw [this]
      simp [strlen, hc, ih]

theorem cstr_length (s : Bytes) : (cstr s).length = strlen s := by
  unfold cstr
  rw [List.length_take]
  exact Nat.min_eq_left (strlen_le s)

theorem cstr_append_zero (a r : Bytes) (h : ∀ b ∈ a, b ≠ 0) : cstr (a ++ 0 :: r) = a := by
  induction a with
  | nil => simp [cstr, strlen]
  | cons c a ih =>
    have hc : c ≠ 0 := h c (List.mem_cons_self _ _)
    have hs := ih (fun b hb => h b (List.mem_cons_of_mem _ hb))
    have : cstr (c :: (a ++ 0 :: r)) = c :: cstr (a ++ 0 :: r) := by simp [cstr, strlen, hc]
    rw [List.cons_append, this, hs]

/-! ### Big-endian words -/

theorem be32_length (n : Nat) : (be32 n).length = 4 := rfl

theorem be32_bytes (n : Nat) : ∀ b ∈ be32 n, b < 256 := by
  intro b hb
  simp only [be32, List.mem_cons, List.mem_singleton, List.not_mem_nil, or_false] at hb
  rcases hb with rfl | rfl | rfl | rfl <;> exact Nat.mod_lt _ (by decide)

/-- Reading the four bytes back gives the value, for a value of 32 bits. -/
theorem be32_value_be32 (n : Nat) (h : n < 2 ^ 32) : be32_value (be32 n) = n := by
  simp only [be32, be32_value]
  omega

/-! ### The password loops of `output_site_generic` -/

theorem templates_ok : templates.all (template_ok 32) = true := by
  set_option maxRecDepth 100000 in decide

theorem range_map_shift (f : Nat → Nat) (n : Nat) :
    (List.range (n + 1)).map f = f 0 :: (List.range n).map (fun i => f (i + 1)) := by
  rw [List.range_succ_eq_map]
  simp [List.map_map, Function.comp_def]

/-- The inner loop appends, for each remaining symbol, the character the
specification selects, provided the symbols are usable and the seed is long
enough. -/
theorem pass_loop_spec (seed : Seed) :
    ∀ (p : List Char) (j : Nat) (buf : Buffer),
      p.all symbol_ok = true → j + p.length < seed.length →
      pass_loop seed p j buf
        = .ok (buf ++ (List.range p.length).map (fun i => spec_char seed (j + i) (p.getD i ' ')))
            := by
  intro p
  induction p with
  | nil => intro j buf _ _; simp [pass_loop]
  | cons c rest ih =>
    intro j buf hok hlen
    simp only [List.all_cons, Bool.and_eq_true] at hok
    obtain ⟨hc, hrest⟩ := hok
    simp only [List.length_cons] at hlen
    unfold symbol_ok at hc
    cases hl : lookup_pass_chars c with
    | none => rw [hl] at hc; simp at hc
    | some cls =>
      rw [hl] at hc
      simp only [Bool.and_eq_true, decide_eq_true_eq] at hc
      obtain ⟨hs, hne⟩ := hc
      have h1 : seed.length > 1 + j := by omega
      have h2 : ¬ (strlen (lit cls) = 0) := by omega
      rw [pass_loop, hl]
      simp only [h1, not_true_eq_false, if_false, h2]
      rw [ih (j + 1) _ hrest (by omega)]
      rw [List.length_cons, range_map_shift]
      simp only [Buffer.add_char, List.append_assoc, List.singleton_append]
      have e : ∀ i, j + 1 + i = j + (i + 1) := fun i => by omega
      simp [spec_char, hl, hs, e]

/-- The selected pattern of a usable entry is one of its patterns. -/
theorem select_templat_mem (seed : Seed) (t : Template) (h : t.count ≠ 0) :
    select_templat seed t ∈ t.templat := by
  unfold select_templat
  have hlt : seed.getD 0 0 % t.count < t.templat.length := Nat.mod_lt _ (Nat.pos_of_ne_zero h)
  rw [List.getD_eq_getElem _ _ hlt]
  exact List.getElem_mem _

theorem select_templat_ok (seed : Seed) (n : Nat) (t : Template) (h : template_ok n t = true) :
    pattern_ok n (select_templat seed t) = true := by
  unfold template_ok at h
  simp only [Bool.and_eq_true, decide_eq_true_eq, List.all_eq_true] at h
  exact h.2 _ (select_templat_mem seed t h.1.1)

/-- The inner loop run on the selected pattern of a usable entry. -/
theorem pass_loop_select (seed : Seed) (t : Template) (h : template_ok seed.length t = true)
    (buf : Buffer) :
    pass_loop seed (select_templat seed t).toList 0 buf = .ok (buf ++ spec_password seed t) := by
  have hp := select_templat_ok seed _ t h
  unfold pattern_ok at hp
  simp only [Bool.and_eq_true, decide_eq_true_eq] at hp
  have hl : (select_templat seed t).toList.length = (select_templat seed t).length := rfl
  rw [pass_loop_spec seed _ 0 buf hp.2 (by rw [hl]; omega), hl]
  simp only [Nat.zero_add]
  rfl

/-- The outer loop appends one line per usable entry, in order. -/
theorem template_loop_spec (seed : Seed) :
    ∀ (catalog : List Template) (buf : Buffer),
      catalog.all (template_ok seed.length) = true →
      template_loop seed catalog buf = .ok (buf ++ (catalog.map (spec_line seed)).flatten) := by
  intro catalog
  induction catalog with
  | nil => intro buf _; simp [template_loop]
  | cons t rest ih =>
    intro buf h
    simp only [List.all_cons, Bool.and_eq_true] at h
    obtain ⟨ht, hrest⟩ := h
    have ht2 := ht
    unfold template_ok at ht2
    simp only [Bool.and_eq_true, decide_eq_true_eq] at ht2
    rw [template_loop]
    simp only [ht2.1.1, if_false]
    rw [pass_loop_select seed t ht]
    simp only []
    rw [ih _ hrest]
    have hn : cstr (lit t.name) = lit t.name := cstr_of_strlen _ ht2.1.2
    have hc : cstr (lit ": ") = lit ": " := by decide
    have hnl : lit "\n" = ['\n'.toNat] := by decide
    simp only [Buffer.add_str, Buffer.add_char, spec_line, hn, hc, hnl, List.map_cons,
      List.flatten_cons, List.append_assoc, List.nil_append]

theorem templates_ok_len (seed : Seed) (h : seed.length = 32) :
    templates.all (template_ok seed.length) = true := by
  rw [h]; exact templates_ok

theorem template_ok_of_mem (t : Template) (ht : t ∈ templates) : template_ok 32 t = true :=
  List.all_eq_true.mp templates_ok t ht

/-- The text written by `output_site_generic` for a 32-byte seed. -/
theorem output_site_generic_spec (seed : Seed) (h : seed.length = 32) :
    output_site_generic seed
      = .ok [Event.write 1 (templates.map (spec_line seed)).flatten] := by
  unfold output_site_generic output_site_generic_with
  rw [template_loop_spec seed templates [] (templates_ok_len seed h)]
  rfl

/-- The characters of the specified password of a usable pattern. -/
theorem spec_pattern_password_getD (seed : Seed) (p : String) (j : Nat) (hj : j < p.length) :
    (spec_pattern_password seed p).getD j 0 = spec_char seed j (p.toList.getD j ' ') := by
  unfold spec_pattern_password
  rw [List.getD_eq_getElem _ _ (by simpa using hj)]
  simp

/-- C1: for every 32-byte seed the text emitted by `output_site_generic` is, category by
category, the name, `": "`, a password and a newline, where the password of category `t`
belongs to the pattern `p = patterns_t[seed[0] mod |patterns_t|]`, has length `|p|`, and its
`j`-th character is `C[seed[1 + j] mod |C|]` with `C = lookup_pass_chars(p[j])`; the inner
loop of the function appends exactly that password to the buffer. -/
theorem C1_password_formula (seed : Seed) (hseed : seed.length = 32) :
    ∃ pw : Template → Bytes,
      output_site_generic seed
        = .ok [Event.write 1
            (templates.map (fun t => lit t.name ++ lit ": " ++ pw t ++ lit "\n")).flatten]
      ∧ ∀ t, t ∈ templates →
          (∀ buf : Buffer, pass_loop seed
              (t.templat.getD (seed.getD 0 0 % t.templat.length) "").toList 0 buf
            = .ok (buf ++ pw t))
          ∧ (pw t).length = (t.templat.getD (seed.getD 0 0 % t.templat.length) "").length
          ∧ ∀ j, j < (t.templat.getD (seed.getD 0 0 % t.templat.length) "").length →
              ∃ cls : String,
                lookup_pass_chars
                    ((t.templat.getD (seed.getD 0 0 % t.templat.length) "").toList.getD j ' ')
                  = some cls
                ∧ (pw t).getD j 0 = (lit cls).getD (seed.getD (1 + j) 0 % cls.length) 0 := by
  refine ⟨spec_password seed, output_site_generic_spec seed hseed, ?_⟩
  intro t ht
  have hok : template_ok seed.length t = true := by rw [hseed]; exact template_ok_of_mem t ht
  refine ⟨fun buf => pass_loop_select seed t hok buf, ?_, ?_⟩
  · simp [spec_password, spec_pattern_password]
  · intro j hj
    have hp := select_templat_ok seed _ t hok
    unfold pattern_ok at hp
    simp only [Bool.and_eq_true, decide_eq_true_eq, List.all_eq_true] at hp
    have hjl : j < (select_templat seed t).toList.length := hj
    have hmem : (select_templat seed t).toList.getD j ' ' ∈ (select_templat seed t).toList := by
      rw [List.getD_eq_getElem _ _ hjl]
      exact List.getElem_mem _
    have hsym := hp.2 _ hmem
    unfold symbol_ok at hsym
    cases hl : lookup_pass_chars ((select_templat seed t).toList.getD j ' ') with
    | none => rw [hl] at hsym; simp at hsym
    | some cls =>
      refine ⟨cls, hl, ?_⟩
      show (spec_pattern_password seed (select_templat seed t)).getD j 0 = _
      rw [spec_pattern_password_getD seed (select_templat seed t) j hj]
      simp only [spec_char, hl]

/-- C1, at the seed whose bytes are `0, 1, ..., 31`. -/
theorem C1_password_formula_witness :
    ∃ pw : Template → Bytes,
      output_site_generic (List.range 32)
        = .ok [Event.write 1
            (templates.map (fun t => lit t.name ++ lit ": " ++ pw t ++ lit "\n")).flatten]
      ∧ ∀ t, t ∈ templates →
          (∀ buf : Buffer, pass_loop (List.range 32)
              (t.templat.getD ((List.range 32).getD 0 0 % t.templat.length) "").toList 0 buf
            = .ok (buf ++ pw t))
          ∧ (pw t).length
              = (t.templat.getD ((List.range 32).getD 0 0 % t.templat.length) "").length
          ∧ ∀ j, j < (t.templat.getD ((List.range 32).getD 0 0 % t.templat.length) "").length →
              ∃ cls : String,
                lookup_pass_chars
                    ((t.templat.getD ((List.range 32).getD 0 0 % t.templat.length) "").toList.getD
                      j ' ')
                  = some cls
                ∧ (pw t).getD j 0
                    = (lit cls).getD ((List.range 32).getD (1 + j) 0 % cls.length) 0 :=
  C1_password_formula (List.range 32) (by decide)

/-! ### The message of `write_passwords_for_site` -/

/-- The message in its byte form. -/
theorem site_message_eq (name : Bytes) (counter : Int) :
    site_message name counter
      = lit "com.lyndir.masterpassword" ++ be32 (strlen name) ++ cstr name
          ++ be32 (counter % 2 ^ 32).toNat := by
  have hiv : cstr (lit iv) = lit "com.lyndir.masterpassword" := by decide
  simp only [site_message, Buffer.add_str, Buffer.append_with_be32_length_prefix,
    Buffer.append_network_long, hiv, List.nil_append]

/-- The three ways a call of `write_passwords_for_site` can go. -/
theorem write_passwords_for_site_with_eq (catalog : List Template) (x : Extern)
    (environ : List Bytes) (key site : Bytes) (counter : Int) :
    write_passwords_for_site_with catalog x environ key site counter
      = match hmacsha256 x (site_message (site_name site) counter) key with
        | .error _ =>
          ⟨[Event.hmac (site_message (site_name site) counter) key,
            writes 2 (lit "hmac fail\n")], none⟩
        | .ok seed =>
          if is_ssh site then
            ⟨Event.hmac (site_message (site_name site) counter) key
                :: (output_site_ssh x environ seed (site_name site)).events,
              (output_site_ssh x environ seed (site_name site)).fault⟩
          else
            match output_site_generic_with catalog seed with
            | .error f => ⟨[Event.hmac (site_message (site_name site) counter) key], some f⟩
            | .ok out => ⟨Event.hmac (site_message (site_name site) counter) key :: out, none⟩ := by
  unfold write_passwords_for_site_with site_message site_name
  cases is_ssh site <;> rfl

theorem output_site_ssh_no_hmac (x : Extern) (environ : List Bytes) (seed site : Bytes) :
    ∀ e ∈ (output_site_ssh x environ seed site).events, e.is_hmac = false ∧ e.is_scrypt = false :=
        by
  simp only [output_site_ssh]
  split
  · simp
  · split <;> simp [Event.is_hmac, Event.is_scrypt]

theorem output_site_generic_with_no_hmac (catalog : List Template) (seed : Bytes)
    (out : List Event) (h : output_site_generic_with catalog seed = .ok out) :
    ∀ e ∈ out, e.is_hmac = false ∧ e.is_scrypt = false := by
  unfold output_site_generic_with at h
  split at h
  · simp at h
  · injection h with h
    subst h
    simp [Event.is_hmac, Event.is_scrypt]

/-- A call of `write_passwords_for_site` starts with its one call of the keyed hash. -/
theorem write_passwords_for_site_with_events (catalog : List Template) (x : Extern)
    (environ : List Bytes) (key site : Bytes) (counter : Int) :
    ∃ rest : List Event,
      (write_passwords_for_site_with catalog x environ key site counter).events
        = Event.hmac (site_message (site_name site) counter) key :: rest
      ∧ ∀ e ∈ rest, e.is_hmac = false ∧ e.is_scrypt = false := by
  rw [write_passwords_for_site_with_eq]
  split
  · exact ⟨_, rfl, by simp [writes, Event.is_hmac, Event.is_scrypt]⟩
  · split
    · exact ⟨_, rfl, output_site_ssh_no_hmac _ _ _ _⟩
    · split
      · exact ⟨_, rfl, by simp⟩
      · next out hout => exact ⟨_, rfl, output_site_generic_with_no_hmac _ _ _ hout⟩

theorem schar_eq (a b : Nat) (ha : a < 256) (hb : b < 256)
    (h1 : ¬ schar a < schar b) (h2 : ¬ schar b < schar a) : a = b := by
  unfold schar at h1 h2
  rw [Nat.mod_eq_of_lt ha, Nat.mod_eq_of_lt hb] at h1 h2
  split_ifs at h1 h2 <;> omega

/-- One step of `strncmp` against a string whose next character is not the terminator. -/
theorem strncmp_cons (s1 s2 : Bytes) (l n : Nat) (hl : l ≠ 0) (hl2 : l < 256)
    (hs : ∀ b ∈ s1, b < 256) :
    strncmp s1 (l :: s2) (n + 1) = 0 ↔ ∃ t, s1 = l :: t ∧ strncmp t s2 n = 0 := by
  cases s1 with
  | nil => simp [strncmp, deref, hl]
  | cons a t =>
    have ha : a < 256 := hs a (List.mem_cons_self _ _)
    by_cases ha0 : a = 0
    · subst ha0
      simp [strncmp, deref, hl]
      exact fun h => absurd h.symm hl
    · by_cases hlt : schar a < schar l
      · have hne : a ≠ l := fun h => by rw [h] at hlt; exact lt_irrefl _ hlt
        simp [strncmp, deref, hl, ha0, hlt, hne]
      · by_cases hgt : schar l < schar a
        · have hne : a ≠ l := fun h => by rw [h] at hgt; exact lt_irrefl _ hgt
          simp [strncmp, deref, hl, ha0, hlt, hgt, hne]
        · have heq : a = l := schar_eq a l ha hl2 hlt hgt
          subst heq
          simp [strncmp, deref, ha0]

/-- Comparing against a whole string `l` over its own length: the result is zero
exactly when `l` is a prefix. -/
theorem strncmp_prefix (l : Bytes) (hl : ∀ b ∈ l, b ≠ 0 ∧ b < 256) :
    ∀ s1 : Bytes, (∀ b ∈ s1, b < 256) → (strncmp s1 l l.length = 0 ↔ ∃ t, s1 = l ++ t) := by
  induction l with
  | nil => intro s1 _; simp [strncmp]
  | cons c l ih =>
    intro s1 hs
    have hc := hl c (List.mem_cons_self _ _)
    rw [List.length_cons, strncmp_cons s1 l c l.length hc.1 hc.2 hs]
    constructor
    · rintro ⟨t, rfl, h⟩
      obtain ⟨u, rfl⟩ :=
        (ih (fun b hb => hl b (List.mem_cons_of_mem _ hb)) t
          (fun b hb => hs b (List.mem_cons_of_mem _ hb))).mp h
      exact ⟨u, rfl⟩
    · rintro ⟨u, rfl⟩
      refine ⟨l ++ u, rfl, ?_⟩
      exact (ih (fun b hb => hl b (List.mem_cons_of_mem _ hb)) (l ++ u)
          (fun b hb => hs b (List.mem_cons_of_mem _ hb))).mpr ⟨u, rfl⟩

/-- The routing test succeeds exactly on the strings that start with "ssh ". -/
theorem is_ssh_iff (site : Bytes) (hs : ∀ b ∈ site, b < 256) :
    is_ssh site = true ↔ site.take 4 = lit "ssh " := by
  have hlit : lit "ssh " = [115, 115, 104, 32] := by decide
  have hl : ∀ b ∈ [115, 115, 104, 32], b ≠ 0 ∧ b < 256 := by decide
  unfold is_ssh
  rw [decide_eq_true_iff, hlit]
  have := strncmp_prefix [115, 115, 104, 32] hl site hs
  rw [show ([115, 115, 104, 32] : Bytes).length = 4 from rfl] at this
  rw [this]
  constructor
  · rintro ⟨t, rfl⟩
    rfl
  · intro h
    exact ⟨site.drop 4, by
      have h2 := (List.take_append_drop 4 site).symm
      rw [h] at h2
      exact h2⟩

/-- C2: for every site string and every counter `0 ≤ c < 2 ^ 31`, the one message
`write_passwords_for_site` hands to the keyed hash is the bytes of
"com.lyndir.masterpassword", the length of the site name (after the routing marker is
stripped) as four big-endian bytes, the bytes of the site name, and `c` as four
big-endian bytes, and nothing else. -/
theorem C2_hashed_message (x : Extern) (environ : List Bytes) (key site : Bytes) (c : Nat)
    (hc : c < 2 ^ 31) :
    ∃ rest : List Event,
      (write_passwords_for_site x environ key site (c : Int)).events
        = Event.hmac
            (lit "com.lyndir.masterpassword" ++ be32 (strlen (site_name site))
              ++ cstr (site_name site) ++ be32 c) key :: rest
      ∧ (∀ e ∈ rest, e.is_hmac = false)
      ∧ (be32 (strlen (site_name site))).length = 4
      ∧ (strlen (site_name site) < 2 ^ 32 →
          be32_value (be32 (strlen (site_name site))) = strlen (site_name site))
      ∧ (be32 c).length = 4
      ∧ be32_value (be32 c) = c
      ∧ ((∀ b ∈ site, b ≠ 0) →
          strlen (site_name site) = (site_name site).length
          ∧ cstr (site_name site) = site_name site)
      ∧ ((∀ b ∈ site, b < 256) →
          (site.take 4 = lit "ssh " → site_name site = site.drop 4)
          ∧ (site.take 4 ≠ lit "ssh " → site_name site = site)) := by
  obtain ⟨rest, h1, h2⟩ :=
    write_passwords_for_site_with_events templates x environ key site (c : Int)
  have hcn : ((c : Int) % 2 ^ 32).toNat = c := by omega
  refine ⟨rest, ?_, fun e he => (h2 e he).1, rfl, be32_value_be32 _, rfl,
    be32_value_be32 c (by omega), ?_, ?_⟩
  rotate_left 2
  · intro hb
    have hiff := is_ssh_iff site hb
    constructor
    · intro h; simp [site_name, hiff.mpr h]
    · intro h
      have : is_ssh site = false := by
        cases hs : is_ssh site
        · rfl
        · exact absurd (hiff.mp hs) h
      simp [site_name, this]
  · rw [write_passwords_for_site, h1, site_message_eq, hcn]
  · intro hnz
    have hn : ∀ b ∈ site_name site, b ≠ 0 := by
      intro b hb
      unfold site_name at hb
      split at hb
      · exact hnz b (List.mem_of_mem_drop hb)
      · exact hnz b hb
    exact ⟨strlen_of_nz _ hn, cstr_of_nz _ hn⟩

/-- C2, for the site "example.com" and the counter 1. -/
theorem C2_hashed_message_witness :
    ∃ rest : List Event,
      (write_passwords_for_site (sample_calls (List.range 32) false) []
          (List.replicate 64 0) (lit "example.com") ((1 : Nat) : Int)).events
        = Event.hmac
            (lit "com.lyndir.masterpassword" ++ be32 (strlen (site_name (lit "example.com")))
              ++ cstr (site_name (lit "example.com")) ++ be32 1) (List.replicate 64 0) :: rest
      ∧ (∀ e ∈ rest, e.is_hmac = false)
      ∧ (be32 (strlen (site_name (lit "example.com")))).length = 4
      ∧ (strlen (site_name (lit "example.com")) < 2 ^ 32 →
          be32_value (be32 (strlen (site_name (lit "example.com"))))
            = strlen (site_name (lit "example.com")))
      ∧ (be32 1).length = 4
      ∧ be32_value (be32 1) = 1
      ∧ ((∀ b ∈ lit "example.com", b ≠ 0) →
          strlen (site_name (lit "example.com")) = (site_name (lit "example.com")).length
          ∧ cstr (site_name (lit "example.com")) = site_name (lit "example.com"))
      ∧ ((∀ b ∈ lit "example.com", b < 256) →
          ((lit "example.com").take 4 = lit "ssh " →
            site_name (lit "example.com") = (lit "example.com").drop 4)
          ∧ ((lit "example.com").take 4 ≠ lit "ssh " →
            site_name (lit "example.com") = lit "example.com")) :=
  C2_hashed_message (sample_calls (List.range 32) false) [] (List.replicate 64 0)
    (lit "example.com") 1 (by decide)

/-! ### The scrypt call of `main` -/

theorem query_loop_no_scrypt (catalog : List Template) (x : Extern) (environ : List Bytes)
    (key : Bytes) (lines : List Bytes) :
    ∀ e ∈ (query_loop catalog x environ key lines).1, e.is_scrypt = false := by
  induction lines using query_loop.induct catalog x environ key with
  | case1 => simp [query_loop, writes, Event.is_scrypt]
  | case2 => simp [query_loop, writes, Event.is_scrypt]
  | case3 s c rest site r f hf =>
    obtain ⟨tl, h1, h2⟩ := write_passwords_for_site_with_events catalog x environ key site (atoi c)
    simp only [r, site] at hf
    intro e he
    simp only [query_loop, hf] at he
    simp only [List.mem_append, List.mem_cons, List.mem_singleton, List.not_mem_nil,
      or_false] at he
    rcases he with (rfl | rfl) | he
    · rfl
    · rfl
    · simp only [site] at h1
      rw [h1] at he
      rcases List.mem_cons.mp he with rfl | he
      · rfl
      · exact (h2 e he).2
  | case4 s c rest site r hf ih =>
    obtain ⟨tl, h1, h2⟩ := write_passwords_for_site_with_events catalog x environ key site (atoi c)
    simp only [r, site] at hf
    intro e he
    simp only [query_loop, hf] at he
    simp only [List.mem_append, List.mem_cons, List.mem_singleton, List.not_mem_nil,
      or_false] at he
    rcases he with ((rfl | rfl) | he) | he
    · rfl
    · rfl
    · simp only [site] at h1
      rw [h1] at he
      rcases List.mem_cons.mp he with rfl | he
      · rfl
      · exact (h2 e he).2
    · exact ih e he

/-- The run of `main` once a passphrase has been read. -/
theorem main_with_some_eq (catalog : List Template) (x : Extern) (envp : List Bytes)
    (pw : Bytes) (lines : List Bytes) :
    main_with catalog x envp (some pw) lines
      = if (x.scrypt (cstr pw) (master_salt envp) 32768 8 2 64).1 ≠ 0 then
          (main_start envp pw ++ [Event.write 2 (lit "scrypt fail\n")], .returned (-1))
        else
          (main_start envp pw ++ [Event.write 1 (lit "\rKey derivation complete.\n")]
              ++ (query_loop catalog x envp
                    (x.scrypt (cstr pw) (master_salt envp) 32768 8 2 64).2 lines).1,
            (query_loop catalog x envp
                    (x.scrypt (cstr pw) (master_salt envp) 32768 8 2 64).2 lines).2) := by
  have hiv : cstr (lit iv) = lit "com.lyndir.masterpassword" := by decide
  have h1 : cstr (lit "SLPM_FULLNAME='") = lit "SLPM_FULLNAME='" := by decide
  have h2 : cstr (lit "'\n") = lit "'\n" := by decide
  have h3 : cstr (lit "Deriving key...") = lit "Deriving key..." := by decide
  have h4 : cstr (lit "scrypt fail\n") = lit "scrypt fail\n" := by decide
  have h5 : cstr (lit "\rKey derivation complete.\n") = lit "\rKey derivation complete.\n" := by
    decide
  simp only [main_with, Buffer.add_str, Buffer.append_with_be32_length_prefix, hiv, h1, h2, h3,
    h4, h5, writes, List.nil_append]
  rfl

/-- C3: once a passphrase has been read, `main` calls scrypt exactly once; the salt is the
bytes of "com.lyndir.masterpassword", the length of the identity name as four big-endian
bytes and the bytes of the identity name, where the identity name is the value of
`SLPM_FULLNAME` or the empty string when that variable is unset; the cost parameters are
`N = 32768`, `r = 8`, `p = 2` and the output has 64 bytes. -/
theorem C3_scrypt_salt_and_cost (x : Extern) (envp : List Bytes) (pw : Bytes)
    (lines : List Bytes) :
    (∃ pre rest : List Event,
      (main x envp (some pw) lines).1
        = pre ++ Event.scrypt (cstr pw)
            (lit "com.lyndir.masterpassword" ++ be32 (strlen (identity_name envp))
              ++ cstr (identity_name envp)) 32768 8 2 64 :: rest
      ∧ (∀ e ∈ pre, e.is_scrypt = false) ∧ (∀ e ∈ rest, e.is_scrypt = false))
    ∧ (∀ v, getenv envp (lit "SLPM_FULLNAME") = some v → identity_name envp = v)
    ∧ (getenv envp (lit "SLPM_FULLNAME") = none →
        identity_name envp = [] ∧
        lit "com.lyndir.masterpassword" ++ be32 (strlen (identity_name envp))
              ++ cstr (identity_name envp)
          = lit "com.lyndir.masterpassword" ++ [0, 0, 0, 0])
    ∧ (strlen (identity_name envp) < 2 ^ 32 →
        be32_value (be32 (strlen (identity_name envp))) = strlen (identity_name envp)) := by
  refine ⟨?_, ?_, ?_, be32_value_be32 _⟩
  · rw [main, main_with_some_eq]
    split
    · refine ⟨[_, _, _], _, rfl, ?_, ?_⟩
      · simp [Event.is_scrypt]
      · simp [Event.is_scrypt]
    · refine ⟨[_, _, _], _, rfl, ?_, ?_⟩
      · simp [Event.is_scrypt]
      · intro e he
        rcases List.mem_cons.mp he with rfl | he
        · rfl
        · exact query_loop_no_scrypt _ _ _ _ _ e he
  · intro v hv
    simp [identity_name, hv]
  · intro hn
    have : identity_name envp = [] := by simp [identity_name, hn]; rfl
    rw [this]
    exact ⟨rfl, rfl⟩

/-- C3, for an environment that sets `SLPM_FULLNAME` to "Jane Doe". -/
theorem C3_scrypt_salt_and_cost_witness :
    (∃ pre rest : List Event,
      (main (sample_calls (List.range 32) false)
          [lit "HOME=/root", lit "SLPM_FULLNAME=Jane Doe"] (some (lit "test")) []).1
        = pre ++ Event.scrypt (cstr (lit "test"))
            (lit "com.lyndir.masterpassword" ++ be32 (strlen (identity_name
              [lit "HOME=/root", lit "SLPM_FULLNAME=Jane Doe"]))
              ++ cstr (identity_name
              [lit "HOME=/root", lit "SLPM_FULLNAME=Jane Doe"])) 32768 8 2 64 :: rest
      ∧ (∀ e ∈ pre, e.is_scrypt = false) ∧ (∀ e ∈ rest, e.is_scrypt = false))
    ∧ (∀ v, getenv [lit "HOME=/root", lit "SLPM_FULLNAME=Jane Doe"] (lit "SLPM_FULLNAME")
          = some v →
        identity_name [lit "HOME=/root", lit "SLPM_FULLNAME=Jane Doe"] = v)
    ∧ (getenv [lit "HOME=/root", lit "SLPM_FULLNAME=Jane Doe"] (lit "SLPM_FULLNAME") = none →
        identity_name [lit "HOME=/root", lit "SLPM_FULLNAME=Jane Doe"] = [] ∧
        lit "com.lyndir.masterpassword" ++ be32 (strlen (identity_name
              [lit "HOME=/root", lit "SLPM_FULLNAME=Jane Doe"]))
              ++ cstr (identity_name
              [lit "HOME=/root", lit "SLPM_FULLNAME=Jane Doe"])
          = lit "com.lyndir.masterpassword" ++ [0, 0, 0, 0])
    ∧ (strlen (identity_name
              [lit "HOME=/root", lit "SLPM_FULLNAME=Jane Doe"]) < 2 ^ 32 →
        be32_value (be32 (strlen (identity_name
              [lit "HOME=/root", lit "SLPM_FULLNAME=Jane Doe"]))) = strlen (identity_name
              [lit "HOME=/root", lit "SLPM_FULLNAME=Jane Doe"])) :=
  C3_scrypt_salt_and_cost (sample_calls (List.range 32) false)
    [lit "HOME=/root", lit "SLPM_FULLNAME=Jane Doe"] (lit "test") []

/-! ### Routing -/

/-- The comment buffer of `output_site_ssh`, read back as a C string. -/
theorem ssh_comment_eq (site : Bytes) :
    cstr (((([] : Buffer) ++ cstr (lit "slpm+")) ++ cstr site) ++ [0]) = lit "slpm+" ++ cstr site
        := by
  have h1 : cstr (lit "slpm+") = lit "slpm+" := by decide
  rw [h1, List.nil_append]
  have hnz : ∀ b ∈ lit "slpm+" ++ cstr site, b ≠ 0 := by
    intro b hb
    rcases List.mem_append.mp hb with hb | hb
    · have hl : ∀ b ∈ lit "slpm+", b ≠ 0 := by decide
      exact hl b hb
    · exact cstr_nz site b hb
  exact cstr_append_zero _ [] hnz

/-- The run of `output_site_ssh` on a seed of at least 32 bytes. -/
theorem output_site_ssh_eq (x : Extern) (environ : List Bytes) (seed site : Bytes)
    (hseed : 32 ≤ seed.length) :
    output_site_ssh x environ seed site
      = if x.agent_add (x.seed_keypair seed).1 (x.seed_keypair seed).2 (lit "slpm+" ++ cstr site)
            = true then
          ⟨[Event.agent_add (x.seed_keypair seed).1 (x.seed_keypair seed).2
              (lit "slpm+" ++ cstr site)], none⟩
        else
          ⟨[Event.agent_add (x.seed_keypair seed).1 (x.seed_keypair seed).2
              (lit "slpm+" ++ cstr site),
            Event.write 1 (ssh_public_line x environ (x.seed_keypair seed).1 site)], none⟩ := by
  have hge : seed.length ≥ crypto_sign_ed25519_SEEDBYTES := hseed
  have h1 : cstr (lit "slpm+") = lit "slpm+" := by decide
  have h2 : cstr (lit "ssh-ed25519") = lit "ssh-ed25519" := by decide
  have h3 : strlen (lit "ssh-ed25519") = 11 := by decide
  have h4 : lit "ssh-ed25519 " = lit "ssh-ed25519" ++ [' '.toNat] := by decide
  have h5 : lit " " = [' '.toNat] := by decide
  have h6 : lit "@slpm+" = '@'.toNat :: lit "slpm+" := by decide
  have h7 : lit "\n" = ['\n'.toNat] := by decide
  simp only [output_site_ssh, hge, not_true_eq_false, if_false, Buffer.add_str,
    Buffer.add_char, ssh_comment_eq]
  by_cases herr : x.agent_add (x.seed_keypair seed).1 (x.seed_keypair seed).2
      (lit "slpm+" ++ cstr site) = true
  · simp only [herr, not_true_eq_false, if_false, if_true]
  · simp only [herr, not_false_eq_true, if_true, if_false]
    simp only [ssh_public_line, user_name, append, Buffer.add_str, Buffer.add_char,
      Buffer.append_with_be32_length_prefix, Buffer.append_with_be32_length_prefix_n,
      h1, h2, h3, h4, h5, h6, h7, List.take_length, List.nil_append, List.append_assoc,
      List.cons_append, List.singleton_append, Bool.false_eq_true, not_false_eq_true,
      if_true, if_false]

/-- C4: for every site string `s` (of bytes), the routing test holds if and only if the
first four characters of `s` are "ssh "; then the site name is `s` without these four
characters, and this name is used for the hashed message and, once the keyed hash has
returned a seed, is handed to `output_site_ssh`, whose agent comment is "slpm+" followed by
it.  In every other case the site name is `s` unchanged and the password path
`output_site_generic` is taken; this includes the strings in which "ssh " occurs only
further on and the proper prefixes of "ssh ". -/
theorem C4_ssh_routing (x : Extern) (environ : List Bytes) (key site : Bytes) (counter : Int)
    (hb : ∀ b ∈ site, b < 256) :
    (is_ssh site = true ↔ site.take 4 = lit "ssh ")
    ∧ (site.take 4 = lit "ssh " → site_name site = site.drop 4)
    ∧ (site.take 4 ≠ lit "ssh " → site_name site = site)
    ∧ (∀ seed : Seed, seed.length = 32 →
        hmacsha256 x (site_message (site_name site) counter) key = .ok seed →
        (site.take 4 = lit "ssh " →
          write_passwords_for_site x environ key site counter
            = ⟨Event.hmac (site_message (site.drop 4) counter) key
                  :: (output_site_ssh x environ seed (site.drop 4)).events,
                (output_site_ssh x environ seed (site.drop 4)).fault⟩
          ∧ Event.agent_add (x.seed_keypair seed).1 (x.seed_keypair seed).2
                (lit "slpm+" ++ cstr (site.drop 4))
              ∈ (write_passwords_for_site x environ key site counter).events)
        ∧ (site.take 4 ≠ lit "ssh " →
          ∃ out, output_site_generic seed = .ok [Event.write 1 out]
            ∧ write_passwords_for_site x environ key site counter
              = ⟨[Event.hmac (site_message site counter) key, Event.write 1 out], none⟩))
    ∧ is_ssh (lit "ssh") = false ∧ is_ssh (lit "ss") = false ∧ is_ssh (lit "") = false
    ∧ is_ssh (lit "my ssh host") = false ∧ is_ssh (lit " ssh x") = false
    ∧ is_ssh (lit "SSH x") = false ∧ is_ssh (lit "sshx") = false := by
  have hiff := is_ssh_iff site hb
  have hyes : site.take 4 = lit "ssh " → site_name site = site.drop 4 := by
    intro h; simp [site_name, hiff.mpr h]
  have hno : site.take 4 ≠ lit "ssh " → site_name site = site := by
    intro h
    have : is_ssh site = false := by
      cases hs : is_ssh site
      · rfl
      · exact absurd (hiff.mp hs) h
    simp [site_name, this]
  refine ⟨hiff, hyes, hno, ?_, by decide, by decide, by decide, by decide, by decide,
    by decide, by decide⟩
  intro seed hseed hh
  have hrun := write_passwords_for_site_with_eq templates x environ key site counter
  rw [hh] at hrun
  constructor
  · intro h
    simp only [hiff.mpr h, if_true, hyes h] at hrun
    rw [write_passwords_for_site, hrun]
    refine ⟨rfl, ?_⟩
    rw [output_site_ssh_eq x environ seed _ (by omega)]
    split <;> simp
  · intro h
    have hf : is_ssh site = false := by
      cases hs : is_ssh site
      · rfl
      · exact absurd (hiff.mp hs) h
    have hgen := output_site_generic_spec seed hseed
    unfold output_site_generic at hgen
    simp only [hf, Bool.false_eq_true, if_false, hno h, hgen] at hrun
    exact ⟨_, output_site_generic_spec seed hseed, by rw [write_passwords_for_site, hrun]⟩

/-- C4, for the site string "ssh github.com". -/
theorem C4_ssh_routing_witness :
    (is_ssh (lit "ssh github.com") = true ↔ (lit "ssh github.com").take 4 = lit "ssh ")
    ∧ ((lit "ssh github.com").take 4 = lit "ssh " →
        site_name (lit "ssh github.com") = (lit "ssh github.com").drop 4)
    ∧ ((lit "ssh github.com").take 4 ≠ lit "ssh " →
        site_name (lit "ssh github.com") = lit "ssh github.com")
    ∧ (∀ seed : Seed, seed.length = 32 →
        hmacsha256 (sample_calls (List.range 32) false)
            (site_message (site_name (lit "ssh github.com")) 1) (List.replicate 64 0) = .ok seed →
        ((lit "ssh github.com").take 4 = lit "ssh " →
          write_passwords_for_site (sample_calls (List.range 32) false) []
              (List.replicate 64 0) (lit "ssh github.com") 1
            = ⟨Event.hmac (site_message ((lit "ssh github.com").drop 4) 1) (List.replicate 64 0)
                  :: (output_site_ssh (sample_calls (List.range 32) false) [] seed
                    ((lit "ssh github.com").drop 4)).events,
                (output_site_ssh (sample_calls (List.range 32) false) [] seed
                    ((lit "ssh github.com").drop 4)).fault⟩
          ∧ Event.agent_add ((sample_calls (List.range 32) false).seed_keypair seed).1
                ((sample_calls (List.range 32) false).seed_keypair seed).2
                (lit "slpm+" ++ cstr ((lit "ssh github.com").drop 4))
              ∈ (write_passwords_for_site (sample_calls (List.range 32) false) []
              (List.replicate 64 0) (lit "ssh github.com") 1).events)
        ∧ ((lit "ssh github.com").take 4 ≠ lit "ssh " →
          ∃ out, output_site_generic seed = .ok [Event.write 1 out]
            ∧ write_passwords_for_site (sample_calls (List.range 32) false) []
              (List.replicate 64 0) (lit "ssh github.com") 1
              = ⟨[Event.hmac (site_message (lit "ssh github.com") 1) (List.replicate 64 0),
                  Event.write 1 out], none⟩))
    ∧ is_ssh (lit "ssh") = false ∧ is_ssh (lit "ss") = false ∧ is_ssh (lit "") = false
    ∧ is_ssh (lit "my ssh host") = false ∧ is_ssh (lit " ssh x") = false
    ∧ is_ssh (lit "SSH x") = false ∧ is_ssh (lit "sshx") = false :=
  C4_ssh_routing (sample_calls (List.range 32) false) [] (List.replicate 64 0)
    (lit "ssh github.com") 1 (by decide)

/-! ### The lines of `output_site_generic` -/

/-- No character class contains a newline. -/
theorem lookup_pass_chars_no_newline (c : Char) (cls : String)
    (h : lookup_pass_chars c = some cls) : ∀ i, (lit cls).getD i 0 ≠ '\n'.toNat := by
  have key : ∀ l : Bytes, (∀ b ∈ l, b ≠ 10) → ∀ i, l.getD i 0 ≠ 10 := by
    intro l hl i
    by_cases hi : i < l.length
    · rw [List.getD_eq_getElem _ _ hi]; exact hl _ (List.getElem_mem _)
    · rw [List.getD_eq_default _ _ (by omega)]; decide
  unfold lookup_pass_chars at h
  split at h <;> first
    | (injection h with h; subst h; exact key _ (by decide))
    | exact absurd h (by simp)

theorem spec_password_no_newline (seed : Seed) (t : Template) :
    ∀ b ∈ spec_password seed t, b ≠ '\n'.toNat := by
  intro b hb
  unfold spec_password spec_pattern_password at hb
  rw [List.mem_map] at hb
  obtain ⟨j, _, rfl⟩ := hb
  unfold spec_char
  split
  · next cls hl => exact lookup_pass_chars_no_newline _ cls hl _
  · decide

/-- C5: for every 32-byte seed `output_site_generic` writes exactly six lines, in the
declaration order of the catalog; each line is the category name, `": "`, the password
that the inner loop produces for the pattern selected from that category, and a newline
(no password contains a newline). -/
theorem C5_six_lines_in_catalog_order (seed : Seed) (hseed : seed.length = 32) :
    ∃ p1 p2 p3 p4 p5 p6 : Bytes,
      output_site_generic seed = .ok [Event.write 1
        (lit "Maximum Security Password" ++ lit ": " ++ p1 ++ lit "\n"
          ++ (lit "Long Password" ++ lit ": " ++ p2 ++ lit "\n")
          ++ (lit "Medium Password" ++ lit ": " ++ p3 ++ lit "\n")
          ++ (lit "Short Password" ++ lit ": " ++ p4 ++ lit "\n")
          ++ (lit "Basic Password" ++ lit ": " ++ p5 ++ lit "\n")
          ++ (lit "PIN" ++ lit ": " ++ p6 ++ lit "\n"))]
      ∧ pass_loop seed (temp_max_sec.getD (seed.getD 0 0 % temp_max_sec.length) "").toList 0 []
          = .ok p1
      ∧ pass_loop seed (temp_long.getD (seed.getD 0 0 % temp_long.length) "").toList 0 []
          = .ok p2
      ∧ pass_loop seed (temp_medium.getD (seed.getD 0 0 % temp_medium.length) "").toList 0 []
          = .ok p3
      ∧ pass_loop seed (temp_short.getD (seed.getD 0 0 % temp_short.length) "").toList 0 []
          = .ok p4
      ∧ pass_loop seed (temp_basic.getD (seed.getD 0 0 % temp_basic.length) "").toList 0 []
          = .ok p5
      ∧ pass_loop seed (temp_pin.getD (seed.getD 0 0 % temp_pin.length) "").toList 0 []
          = .ok p6
      ∧ ∀ p ∈ [p1, p2, p3, p4, p5, p6], ∀ b ∈ p, b ≠ '\n'.toNat := by
  have hsel : ∀ t ∈ templates, pass_loop seed (select_templat seed t).toList 0 []
      = .ok (spec_password seed t) := by
    intro t ht
    have := pass_loop_select seed t (by rw [hseed]; exact template_ok_of_mem t ht) []
    simpa using this
  refine ⟨spec_password seed (DEF_TEMP "Maximum Security Password" temp_max_sec),
    spec_password seed (DEF_TEMP "Long Password" temp_long),
    spec_password seed (DEF_TEMP "Medium Password" temp_medium),
    spec_password seed (DEF_TEMP "Short Password" temp_short),
    spec_password seed (DEF_TEMP "Basic Password" temp_basic),
    spec_password seed (DEF_TEMP "PIN" temp_pin), ?_, ?_, ?_, ?_, ?_, ?_, ?_, ?_⟩
  · rw [output_site_generic_spec seed hseed]
    simp only [templates, List.map_cons, List.map_nil, List.flatten_cons, List.flatten_nil,
      spec_line, DEF_TEMP, List.append_assoc, List.append_nil]
  · exact hsel (DEF_TEMP "Maximum Security Password" temp_max_sec) (by simp [templates])
  · exact hsel (DEF_TEMP "Long Password" temp_long) (by simp [templates])
  · exact hsel (DEF_TEMP "Medium Password" temp_medium) (by simp [templates])
  · exact hsel (DEF_TEMP "Short Password" temp_short) (by simp [templates])
  · exact hsel (DEF_TEMP "Basic Password" temp_basic) (by simp [templates])
  · exact hsel (DEF_TEMP "PIN" temp_pin) (by simp [templates])
  · intro p hp
    simp only [List.mem_cons, List.mem_singleton, List.not_mem_nil, or_false] at hp
    rcases hp with rfl | rfl | rfl | rfl | rfl | rfl <;> exact spec_password_no_newline seed _

/-- C5, at the seed whose bytes are `0, 1, ..., 31`. -/
theorem C5_six_lines_in_catalog_order_witness :
    ∃ p1 p2 p3 p4 p5 p6 : Bytes,
      output_site_generic (List.range 32) = .ok [Event.write 1
        (lit "Maximum Security Password" ++ lit ": " ++ p1 ++ lit "\n"
          ++ (lit "Long Password" ++ lit ": " ++ p2 ++ lit "\n")
          ++ (lit "Medium Password" ++ lit ": " ++ p3 ++ lit "\n")
          ++ (lit "Short Password" ++ lit ": " ++ p4 ++ lit "\n")
          ++ (lit "Basic Password" ++ lit ": " ++ p5 ++ lit "\n")
          ++ (lit "PIN" ++ lit ": " ++ p6 ++ lit "\n"))]
      ∧ pass_loop (List.range 32) (temp_max_sec.getD ((List.range 32).getD 0 0 %
          temp_max_sec.length) "").toList 0 []
          = .ok p1
      ∧ pass_loop (List.range 32) (temp_long.getD ((List.range 32).getD 0 0 % temp_long.length)
          "").toList 0 []
          = .ok p2
      ∧ pass_loop (List.range 32) (temp_medium.getD ((List.range 32).getD 0 0 %
          temp_medium.length) "").toList 0 []
          = .ok p3
      ∧ pass_loop (List.range 32) (temp_short.getD ((List.range 32).getD 0 0 % temp_short.length)
          "").toList 0 []
          = .ok p4
      ∧ pass_loop (List.range 32) (temp_basic.getD ((List.range 32).getD 0 0 % temp_basic.length)
          "").toList 0 []
          = .ok p5
      ∧ pass_loop (List.range 32) (temp_pin.getD ((List.range 32).getD 0 0 % temp_pin.length)
          "").toList 0 []
          = .ok p6
      ∧ ∀ p ∈ [p1, p2, p3, p4, p5, p6], ∀ b ∈ p, b ≠ '\n'.toNat :=
  C5_six_lines_in_catalog_order (List.range 32) (by decide)

/-! ### The assertions of `output_site_generic` -/

/-- The facts about the compiled-in catalog that keep both assertions unreachable. -/
theorem catalog_facts :
    ∀ t ∈ templates, t.count ≠ 0 ∧ ∀ p ∈ t.templat, 1 + p.length ≤ 32 ∧
      ∀ c ∈ p.toList, c ∈ ['V', 'C', 'v', 'c', 'A', 'a', 'n', 'o', 'x'] ∧
        ∃ cls ∈ ["AEIOU", "BCDFGHJKLMNPQRSTVWXYZ", "aeiou", "bcdfghjklmnpqrstvwxyz",
            "AEIOUBCDFGHJKLMNPQRSTVWXYZ",
            "AEIOUaeiouBCDFGHJKLMNPQRSTVWXYZbcdfghjklmnpqrstvwxyz", "0123456789",
            "@&%?,=[]_:-+*$#!'^~;()/.",
            "AEIOUaeiouBCDFGHJKLMNPQRSTVWXYZbcdfghjklmnpqrstvwxyz0123456789!@#$%^&*()"],
          lookup_pass_chars c = some cls ∧ strlen (lit cls) ≠ 0 := by
  set_option maxRecDepth 1000000 in decide

/-- C6: for every 32-byte seed `output_site_generic` ends normally, writing its buffer:
neither assertion is reached.  Indeed no category is empty, every read seed index `1 + j`
is below the seed length 32, every symbol of every compiled-in pattern is one of the nine
symbols known to `lookup_pass_chars`, and its character class is non-empty. -/
theorem C6_no_assertion_reachable (seed : Seed) (hseed : seed.length = 32) :
    (∃ out, output_site_generic seed = .ok [Event.write 1 out])
    ∧ ∀ t ∈ templates, t.count ≠ 0 ∧ ∀ p ∈ t.templat,
        (∀ j, j < p.length → 1 + j < seed.length) ∧
        ∀ c ∈ p.toList, c ∈ ['V', 'C', 'v', 'c', 'A', 'a', 'n', 'o', 'x'] ∧
          ∃ cls, lookup_pass_chars c = some cls ∧ strlen (lit cls) ≠ 0 := by
  refine ⟨⟨_, output_site_generic_spec seed hseed⟩, ?_⟩
  intro t ht
  obtain ⟨h1, h2⟩ := catalog_facts t ht
  refine ⟨h1, fun p hp => ?_⟩
  obtain ⟨h3, h4⟩ := h2 p hp
  refine ⟨fun j hj => by omega, fun c hc => ?_⟩
  obtain ⟨h5, cls, _, h6⟩ := h4 c hc
  exact ⟨h5, cls, h6⟩

/-- C6, at the seed whose bytes are `0, 1, ..., 31`. -/
theorem C6_no_assertion_reachable_witness :
    (∃ out, output_site_generic (List.range 32) = .ok [Event.write 1 out])
    ∧ ∀ t ∈ templates, t.count ≠ 0 ∧ ∀ p ∈ t.templat,
        (∀ j, j < p.length → 1 + j < (List.range 32).length) ∧
        ∀ c ∈ p.toList, c ∈ ['V', 'C', 'v', 'c', 'A', 'a', 'n', 'o', 'x'] ∧
          ∃ cls, lookup_pass_chars c = some cls ∧ strlen (lit cls) ≠ 0 :=
  C6_no_assertion_reachable (List.range 32) (by decide)

/-- C7: every pattern of the compiled-in catalog has length at most `seedLength - 1 = 31`,
where `seedLength = 32` is the width of an HMAC-SHA256 tag, and all patterns of one
category have the same length. -/
theorem C7_pattern_lengths (t : Template) (ht : t ∈ templates) (p : String)
    (hp : p ∈ t.templat) :
    crypto_auth_hmacsha256_BYTES = 32
    ∧ p.length ≤ crypto_auth_hmacsha256_BYTES - 1
    ∧ ∀ q ∈ t.templat, q.length = p.length := by
  have key : ∀ t ∈ templates, ∀ p ∈ t.templat, crypto_auth_hmacsha256_BYTES = 32
      ∧ p.length ≤ crypto_auth_hmacsha256_BYTES - 1
      ∧ ∀ q ∈ t.templat, q.length = p.length := by
    set_option maxRecDepth 1000000 in decide
  exact key t ht p hp

/-- C7, at the second pattern of the category "Maximum Security Password". -/
theorem C7_pattern_lengths_witness :
    crypto_auth_hmacsha256_BYTES = 32
    ∧ "axxxxxxxxxxxxxxxxxno".length ≤ crypto_auth_hmacsha256_BYTES - 1
    ∧ ∀ q ∈ (DEF_TEMP "Maximum Security Password" temp_max_sec).templat,
        q.length = "axxxxxxxxxxxxxxxxxno".length :=
  C7_pattern_lengths (DEF_TEMP "Maximum Security Password" temp_max_sec) (by decide)
    "axxxxxxxxxxxxxxxxxno" (by decide)

/-! ### The pattern-length check -/

/-- When the inner loop ends normally, the pattern was short enough for the seed. -/
theorem pass_loop_ok_bound (seed : Seed) :
    ∀ (p : List Char) (j : Nat) (buf out : Buffer),
      pass_loop seed p j buf = .ok out →
      (p = [] ∨ j + p.length < seed.length) ∧ out.length = buf.length + p.length := by
  intro p
  induction p with
  | nil =>
    intro j buf out h
    simp only [pass_loop] at h
    injection h with h
    subst h
    simp
  | cons c rest ih =>
    intro j buf out h
    rw [pass_loop] at h
    split at h
    · simp at h
    · simp only [] at h
      split at h
      · simp at h
      · next hlen =>
        split at h
        · simp at h
        · obtain ⟨h1, h2⟩ := ih _ _ _ h
          simp only [Buffer.add_char, List.length_append, List.length_singleton] at h2
          refine ⟨Or.inr ?_, by simp only [List.length_cons]; omega⟩
          simp only [List.length_cons]
          rcases h1 with rfl | h1
          · simp only [List.length_nil]; omega
          · omega

/-- On a pattern of usable symbols that is too long for the seed, the inner loop stops at
the assertion `seed.size() > 1 + j`. -/
theorem pass_loop_too_long (seed : Seed) :
    ∀ (p : List Char) (j : Nat) (buf : Buffer),
      p.all symbol_ok = true → p ≠ [] → seed.length ≤ j + p.length →
      pass_loop seed p j buf = .error .seed_index := by
  intro p
  induction p with
  | nil => intro j buf _ h; exact absurd rfl h
  | cons c rest ih =>
    intro j buf hok _ hlen
    simp only [List.all_cons, Bool.and_eq_true] at hok
    obtain ⟨hc, hrest⟩ := hok
    simp only [List.length_cons] at hlen
    unfold symbol_ok at hc
    cases hl : lookup_pass_chars c with
    | none => rw [hl] at hc; simp at hc
    | some cls =>
      rw [hl] at hc
      simp only [Bool.and_eq_true, decide_eq_true_eq] at hc
      rw [pass_loop, hl]
      simp only []
      by_cases h1 : seed.length > 1 + j
      · have h2 : ¬ (strlen (lit cls) = 0) := by omega
        simp only [h1, not_true_eq_false, if_false, h2]
        apply ih _ _ hrest
        · intro hnil
          rw [hnil] at hlen
          simp only [List.length_nil] at hlen
          omega
        · omega
      · simp only [h1, not_false_eq_true, if_true]

/-- When the outer loop ends normally, every selected pattern was short enough. -/
theorem template_loop_ok_bound (seed : Seed) :
    ∀ (catalog : List Template) (buf out : Buffer),
      template_loop seed catalog buf = .ok out →
      ∀ t ∈ catalog, (select_templat seed t).length + 1 ≤ max seed.length 1 := by
  intro catalog
  induction catalog with
  | nil => intro buf out _ t ht; simp at ht
  | cons t0 rest ih =>
    intro buf out h t ht
    rw [template_loop] at h
    split at h
    · simp at h
    · split at h
      · simp at h
      · next b hb =>
        rcases List.mem_cons.mp ht with rfl | ht
        · obtain ⟨h1, _⟩ := pass_loop_ok_bound seed _ _ _ _ hb
          have hl : (select_templat seed t).toList.length = (select_templat seed t).length := rfl
          rcases h1 with h1 | h1
          · have : (select_templat seed t).length = 0 := by rw [← hl, h1]; rfl
            omega
          · rw [hl] at h1
            omega
        · exact ih _ _ h t ht

/-- Before the first query `main` does not look at the catalog. -/
theorem main_with_no_query (catalog : List Template) (x : Extern) (envp : List Bytes)
    (pw : Option Bytes) (lines : List Bytes) (h : lines.length ≤ 1) :
    main_with catalog x envp pw lines = main_with templates x envp pw lines := by
  have hq : ∀ key, query_loop catalog x envp key lines = query_loop templates x envp key lines := by
    intro key
    match lines, h with
    | [], _ => rfl
    | [_], _ => rfl
    | _ :: _ :: _, h => simp at h
  cases pw with
  | none => rfl
  | some pw => rw [main_with_some_eq, main_with_some_eq, hq]

/-- C8, refuted as stated: with a catalog that holds a pattern of 40 symbols `main` starts,
derives the key and serves a query (the seed of zero bytes selects the pattern "nnnn" and
the PIN line is written) and returns 0: no validation rejects the catalog at startup.  The
over-long pattern is noticed only during a call that selects it (the seed of one bytes),
by the assertion of `output_site_generic`. -/
theorem C8_no_startup_validation :
    (∃ t ∈ long_catalog, ∃ p ∈ t.templat, p.length = 40)
    ∧ main_with long_catalog (sample_calls (List.replicate 32 0) false) []
          (some (lit "test")) [lit "example.com", lit "1"]
        = (main_start [] (lit "test")
            ++ [Event.write 1 (lit "\rKey derivation complete.\n"),
                Event.prompt (lit "Site: "), Event.prompt (lit "Counter: "),
                Event.hmac (site_message (lit "example.com") 1) (List.replicate 64 0),
                Event.write 1 (lit "PIN: 0000\n"),
                Event.prompt (lit "Site: "),
                Event.write 1 (lit "\rBye!    \n")], Exit.returned 0)
    ∧ main_with long_catalog (sample_calls (List.replicate 32 1) false) []
          (some (lit "test")) [lit "example.com", lit "1"]
        = (main_start [] (lit "test")
            ++ [Event.write 1 (lit "\rKey derivation complete.\n"),
                Event.prompt (lit "Site: "), Event.prompt (lit "Counter: "),
                Event.hmac (site_message (lit "example.com") 1) (List.replicate 64 0)],
            Exit.aborted Fault.seed_index) := by
  set_option maxRecDepth 1000000 in decide

/-- C8, as amended: the pattern-length invariant is checked during each call, not at
startup.  Until the first query `main` behaves the same for every catalog.  When the
pattern selected for some category by a 32-byte seed has more than 31 symbols,
`output_site_generic` stops with a fault and writes nothing; for a pattern of usable symbols
the fault is the failing assertion `seed.size() > 1 + j`.  Such a fault ends
`write_passwords_for_site` after the keyed hash, with nothing written: the over-long pattern
is never cut down to a shorter password. -/
theorem C8_length_checked_per_call (catalog : List Template) (x : Extern) (envp : List Bytes)
    (key site : Bytes) (counter : Int) (seed : Seed) (hseed : seed.length = 32) :
    (∀ (pw : Option Bytes) (lines : List Bytes), lines.length ≤ 1 →
        main_with catalog x envp pw lines = main x envp pw lines)
    ∧ ((∃ t ∈ catalog, 31 < (select_templat seed t).length) →
        ∃ f, output_site_generic_with catalog seed = .error f)
    ∧ (∀ (t : Template) (buf : Buffer), 31 < (select_templat seed t).length →
        (select_templat seed t).toList.all symbol_ok = true →
        pass_loop seed (select_templat seed t).toList 0 buf = .error .seed_index)
    ∧ (∀ f, hmacsha256 x (site_message (site_name site) counter) key = .ok seed →
        is_ssh site = false →
        output_site_generic_with catalog seed = .error f →
        write_passwords_for_site_with catalog x envp key site counter
          = ⟨[Event.hmac (site_message (site_name site) counter) key], some f⟩) := by
  refine ⟨fun pw lines h => main_with_no_query catalog x envp pw lines h, ?_, ?_, ?_⟩
  · rintro ⟨t, ht, hlong⟩
    cases hres : output_site_generic_with catalog seed with
    | error f => exact ⟨f, rfl⟩
    | ok out =>
      exfalso
      unfold output_site_generic_with at hres
      split at hres
      · simp at hres
      · next buf hbuf =>
        have := template_loop_ok_bound seed catalog [] buf hbuf t ht
        rw [hseed] at this
        simp only [Nat.reduceLeDiff, max_eq_left] at this
        omega
  · intro t buf hlong hok
    have hl : (select_templat seed t).toList.length = (select_templat seed t).length := rfl
    apply pass_loop_too_long seed _ 0 buf hok
    · intro hnil
      rw [hnil] at hl
      simp only [List.length_nil] at hl
      omega
    · rw [hl, hseed]; omega
  · intro f hh hssh hgen
    rw [write_passwords_for_site_with_eq, hh]
    simp only [hssh, Bool.false_eq_true, if_false, hgen]

/-- C8 as amended, for the catalog with a pattern of 40 symbols and the seed of one bytes. -/
theorem C8_length_checked_per_call_witness :
    (∀ (pw : Option Bytes) (lines : List Bytes), lines.length ≤ 1 →
        main_with long_catalog (sample_calls (List.replicate 32 1) false) [] pw lines
          = main (sample_calls (List.replicate 32 1) false) [] pw lines)
    ∧ ((∃ t ∈ long_catalog, 31 < (select_templat (List.replicate 32 1) t).length) →
        ∃ f, output_site_generic_with long_catalog (List.replicate 32 1) = .error f)
    ∧ (∀ (t : Template) (buf : Buffer), 31 < (select_templat (List.replicate 32 1) t).length →
        (select_templat (List.replicate 32 1) t).toList.all symbol_ok = true →
        pass_loop (List.replicate 32 1) (select_templat (List.replicate 32 1) t).toList 0 buf =
            .error .seed_index)
    ∧ (∀ f, hmacsha256 (sample_calls (List.replicate 32 1) false)
            (site_message (site_name (lit "example.com")) 1) (List.replicate 64 0)
          = .ok (List.replicate 32 1) →
        is_ssh (lit "example.com") = false →
        output_site_generic_with long_catalog (List.replicate 32 1) = .error f →
        write_passwords_for_site_with long_catalog (sample_calls (List.replicate 32 1) false) []
            (List.replicate 64 0) (lit "example.com") 1
          = ⟨[Event.hmac (site_message (site_name (lit "example.com")) 1)
              (List.replicate 64 0)], some f⟩) :=
  C8_length_checked_per_call long_catalog (sample_calls (List.replicate 32 1) false) []
    (List.replicate 64 0) (lit "example.com") 1 (List.replicate 32 1) (by decide)

/-! ### The PIN -/

theorem digit_class (k : Nat) : (lit "0123456789").getD (k % 10) 0 = '0'.toNat + k % 10 := by
  have h : k % 10 < 10 := Nat.mod_lt _ (by decide)
  generalize k % 10 = m at h
  interval_cases m <;> decide

theorem spec_password_pin (seed : Seed) :
    spec_password seed (DEF_TEMP "PIN" temp_pin)
      = ['0'.toNat + seed.getD 1 0 % 10, '0'.toNat + seed.getD 2 0 % 10,
          '0'.toNat + seed.getD 3 0 % 10, '0'.toNat + seed.getD 4 0 % 10] := by
  have hsel : (DEF_TEMP "PIN" temp_pin).templat.getD
      (seed.getD 0 0 % (DEF_TEMP "PIN" temp_pin).templat.length) "" = "nnnn" := by
    have : seed.getD 0 0 % (DEF_TEMP "PIN" temp_pin).templat.length = 0 := Nat.mod_one _
    rw [this]; rfl
  unfold spec_password
  rw [hsel]
  have hc : ∀ j, spec_char seed j 'n' = '0'.toNat + seed.getD (1 + j) 0 % 10 := by
    intro j
    have hl : lookup_pass_chars 'n' = some "0123456789" := by decide
    unfold spec_char
    rw [hl]
    exact digit_class _
  show [spec_char seed 0 'n', spec_char seed 1 'n', spec_char seed 2 'n', spec_char seed 3 'n']
    = _
  simp only [hc]

/-- C9: for every 32-byte seed the last line written is that of the last category, "PIN";
its password is four characters long, each a decimal digit, the `j`-th being the digit
`seed[1 + j] mod 10`. -/
theorem C9_pin_is_four_digits (seed : Seed) (hseed : seed.length = 32) :
    ∃ pre pin : Bytes,
      output_site_generic seed
        = .ok [Event.write 1 (pre ++ (lit "PIN" ++ lit ": " ++ pin ++ lit "\n"))]
      ∧ templates.getLast? = some (DEF_TEMP "PIN" temp_pin)
      ∧ (∀ buf : Buffer,
          pass_loop seed (select_templat seed (DEF_TEMP "PIN" temp_pin)).toList 0 buf
            = .ok (buf ++ pin))
      ∧ pin = ['0'.toNat + seed.getD 1 0 % 10, '0'.toNat + seed.getD 2 0 % 10,
          '0'.toNat + seed.getD 3 0 % 10, '0'.toNat + seed.getD 4 0 % 10]
      ∧ pin.length = 4
      ∧ ∀ b ∈ pin, '0'.toNat ≤ b ∧ b ≤ '9'.toNat := by
  refine ⟨((templates.take 5).map (spec_line seed)).flatten,
    spec_password seed (DEF_TEMP "PIN" temp_pin), ?_, by decide, ?_, spec_password_pin seed, ?_, ?_⟩
  · rw [output_site_generic_spec seed hseed]
    simp only [templates, List.take, List.map_cons, List.map_nil, List.flatten_cons,
      List.flatten_nil, spec_line, DEF_TEMP, List.append_assoc, List.append_nil]
  · intro buf
    exact pass_loop_select seed _ (by rw [hseed]; exact template_ok_of_mem _ (by decide)) buf
  · rw [spec_password_pin]; rfl
  · rw [spec_password_pin]
    intro b hb
    have h48 : '0'.toNat = 48 := by decide
    have h57 : '9'.toNat = 57 := by decide
    simp only [List.mem_cons, List.mem_singleton, List.not_mem_nil, or_false] at hb
    rcases hb with rfl | rfl | rfl | rfl <;> omega

/-- C9, at the seed whose bytes are `0, 1, ..., 31`. -/
theorem C9_pin_is_four_digits_witness :
    ∃ pre pin : Bytes,
      output_site_generic (List.range 32)
        = .ok [Event.write 1 (pre ++ (lit "PIN" ++ lit ": " ++ pin ++ lit "\n"))]
      ∧ templates.getLast? = some (DEF_TEMP "PIN" temp_pin)
      ∧ (∀ buf : Buffer,
          pass_loop (List.range 32) (select_templat (List.range 32) (DEF_TEMP "PIN"
              temp_pin)).toList 0 buf
            = .ok (buf ++ pin))
      ∧ pin = ['0'.toNat + (List.range 32).getD 1 0 % 10, '0'.toNat + (List.range 32).getD 2 0 % 10,
          '0'.toNat + (List.range 32).getD 3 0 % 10, '0'.toNat + (List.range 32).getD 4 0 % 10]
      ∧ pin.length = 4
      ∧ ∀ b ∈ pin, '0'.toNat ≤ b ∧ b ≤ '9'.toNat :=
  C9_pin_is_four_digits (List.range 32) (by decide)

/-! ### The public line of `output_site_ssh` -/

/-- C10: for a 32-byte seed whose key pair has a 32-byte public key, `output_site_ssh` writes
something if and only if the agent's `add` call reports success.  The comment handed to the
agent is "slpm+" followed by the site.  On success exactly one line is written to standard
output: "ssh-ed25519 ", the base64 text of `be32(11) ++ "ssh-ed25519" ++ be32(32) ++ publicKey`,
a space, the user, "@slpm+", the site and a newline, where the user is the value of `USER`
or "user" when `USER` is unset.  On failure nothing is written. -/
theorem C10_ssh_public_line (x : Extern) (environ : List Bytes) (seed site : Bytes)
    (hseed : seed.length = 32) (hpub : (x.seed_keypair seed).1.length = 32) :
    ((∃ fd d, Event.write fd d ∈ (output_site_ssh x environ seed site).events)
        ↔ x.agent_add (x.seed_keypair seed).1 (x.seed_keypair seed).2 (lit "slpm+" ++ cstr site)
            = false)
    ∧ (x.agent_add (x.seed_keypair seed).1 (x.seed_keypair seed).2 (lit "slpm+" ++ cstr site)
          = false →
        output_site_ssh x environ seed site
          = ⟨[Event.agent_add (x.seed_keypair seed).1 (x.seed_keypair seed).2
                (lit "slpm+" ++ cstr site),
              Event.write 1
                (lit "ssh-ed25519 "
                  ++ cstr (x.to_base64
                      (be32 11 ++ lit "ssh-ed25519" ++ be32 32 ++ (x.seed_keypair seed).1))
                  ++ lit " " ++ cstr (user_name environ) ++ lit "@slpm+" ++ cstr site
                  ++ lit "\n")], none⟩)
    ∧ (x.agent_add (x.seed_keypair seed).1 (x.seed_keypair seed).2 (lit "slpm+" ++ cstr site)
          = true →
        output_site_ssh x environ seed site
          = ⟨[Event.agent_add (x.seed_keypair seed).1 (x.seed_keypair seed).2
                (lit "slpm+" ++ cstr site)], none⟩)
    ∧ (∀ u, getenv environ (lit "USER") = some u → user_name environ = u)
    ∧ (getenv environ (lit "USER") = none → user_name environ = lit "user") := by
  have hrun := output_site_ssh_eq x environ seed site (by omega)
  refine ⟨?_, ?_, ?_, ?_, ?_⟩
  · rw [hrun]
    cases herr : x.agent_add (x.seed_keypair seed).1 (x.seed_keypair seed).2
        (lit "slpm+" ++ cstr site)
    · simp
    · simp
  · intro herr
    rw [hrun]
    simp only [herr, Bool.false_eq_true, if_false, ssh_public_line, hpub]
  · intro herr
    rw [hrun]
    simp only [herr, if_true]
  · intro u hu
    simp [user_name, hu]
  · intro hu
    simp [user_name, hu]

/-- C10, for the seed `0, 1, ..., 31`, the site "github.com" and the user "alice". -/
theorem C10_ssh_public_line_witness :
    ((∃ fd d, Event.write fd d ∈ (output_site_ssh (sample_calls (List.range 32) false)
            [lit "USER=alice"] (List.range 32) (lit "github.com")).events)
        ↔ (sample_calls (List.range 32) false).agent_add (
          (sample_calls (List.range 32) false).seed_keypair (List.range 32)).1 (
          (sample_calls (List.range 32) false).seed_keypair (List.range 32)).2 (lit "slpm+" ++
              cstr (lit "github.com"))
            = false)
    ∧ ((sample_calls (List.range 32) false).agent_add (
          (sample_calls (List.range 32) false).seed_keypair (List.range 32)).1 (
          (sample_calls (List.range 32) false).seed_keypair (List.range 32)).2 (lit "slpm+" ++
              cstr (lit "github.com"))
          = false →
        output_site_ssh (sample_calls (List.range 32) false)
            [lit "USER=alice"] (List.range 32) (lit "github.com")
          = ⟨[Event.agent_add (
          (sample_calls (List.range 32) false).seed_keypair (List.range 32)).1 (
          (sample_calls (List.range 32) false).seed_keypair (List.range 32)).2
                (lit "slpm+" ++ cstr (lit "github.com")),
              Event.write 1
                (lit "ssh-ed25519 "
                  ++ cstr ((sample_calls (List.range 32) false).to_base64
                      (be32 11 ++ lit "ssh-ed25519" ++ be32 32 ++ (
          (sample_calls (List.range 32) false).seed_keypair (List.range 32)).1))
                  ++ lit " " ++ cstr (user_name [lit "USER=alice"]) ++ lit "@slpm+" ++ cstr (lit
                      "github.com")
                  ++ lit "\n")], none⟩)
    ∧ ((sample_calls (List.range 32) false).agent_add (
          (sample_calls (List.range 32) false).seed_keypair (List.range 32)).1 (
          (sample_calls (List.range 32) false).seed_keypair (List.range 32)).2 (lit "slpm+" ++
              cstr (lit "github.com"))
          = true →
        output_site_ssh (sample_calls (List.range 32) false)
            [lit "USER=alice"] (List.range 32) (lit "github.com")
          = ⟨[Event.agent_add (
          (sample_calls (List.range 32) false).seed_keypair (List.range 32)).1 (
          (sample_calls (List.range 32) false).seed_keypair (List.range 32)).2
                (lit "slpm+" ++ cstr (lit "github.com"))], none⟩)
    ∧ (∀ u, getenv [lit "USER=alice"] (lit "USER") = some u → user_name [lit "USER=alice"] = u)
    ∧ (getenv [lit "USER=alice"] (lit "USER") = none → user_name [lit "USER=alice"] = lit "user") :=
  C10_ssh_public_line (sample_calls (List.range 32) false) [lit "USER=alice"] (List.range 32)
    (lit "github.com") (by decide) (by decide)

/-! ### Zeroing -/

/-- The zeroing loop, entered at index `i` with enough fuel, is left at index `len`, the
bytes `i .. len - 1` being zero and all others untouched. -/
theorem sodium_memzero_loop_spec :
    ∀ (fuel : Nat) (pnt : Bytes) (len i : Nat), i ≤ len → len - i < fuel →
      ∃ mem, sodium_memzero_loop fuel pnt len i = some (mem, len)
        ∧ mem.length = pnt.length
        ∧ ∀ k, mem[k]? = if i ≤ k ∧ k < len ∧ k < pnt.length then some 0 else pnt[k]? := by
  intro fuel
  induction fuel with
  | zero => intro pnt len i _ h; omega
  | succ fuel ih =>
    intro pnt len i hi hf
    rw [sodium_memzero_loop]
    by_cases hlt : i < len
    · simp only [hlt, if_true]
      obtain ⟨mem, h1, h2, h3⟩ := ih (pnt.set i 0) len (i + 1) (by omega) (by omega)
      refine ⟨mem, h1, by rw [h2, List.length_set], fun k => ?_⟩
      rw [h3 k, List.length_set, List.getElem?_set]
      by_cases hk : i = k
      · subst hk
        by_cases hb : i < pnt.length
        · simp [hlt, hb]
        · have : pnt[i]? = none := List.getElem?_eq_none (by omega)
          simp [hb, this]
      · by_cases hk2 : i + 1 ≤ k
        · have : i ≤ k := by omega
          simp [hk, hk2, this]
        · have : ¬ (i ≤ k) := by omega
          simp [hk, hk2, this]
    · have : i = len := by omega
      subst this
      refine ⟨pnt, by simp, rfl, fun k => ?_⟩
      have : ¬ (i ≤ k ∧ k < i ∧ k < pnt.length) := by omega
      simp [this]

/-- The memory after `sodium_memzero`: the loop is left (the fuel suffices), the first `len`
bytes are zero and the others are untouched. -/
theorem sodium_memzero_spec (pnt : Bytes) (len : Nat) :
    sodium_memzero_loop (len + 1) pnt len 0 = some (sodium_memzero pnt len, len)
    ∧ (sodium_memzero pnt len).length = pnt.length
    ∧ ∀ k, (sodium_memzero pnt len)[k]?
        = if k < len ∧ k < pnt.length then some 0 else pnt[k]? := by
  obtain ⟨mem, h1, h2, h3⟩ := sodium_memzero_loop_spec (len + 1) pnt len 0 (by omega) (by omega)
  have hm : sodium_memzero pnt len = mem := by
    unfold sodium_memzero
    rw [h1]
  rw [hm]
  refine ⟨h1, h2, fun k => ?_⟩
  rw [h3 k]
  simp

/-- Zeroing the first `len` bytes of a buffer that has them. -/
theorem sodium_memzero_prefix (pnt : Bytes) (len : Nat) (h : len ≤ pnt.length) :
    sodium_memzero pnt len = List.replicate len 0 ++ pnt.drop len := by
  obtain ⟨_, h2, h3⟩ := sodium_memzero_spec pnt len
  apply List.ext_getElem?
  intro k
  rw [h3 k]
  by_cases hk : k < len
  · have hk2 : k < pnt.length := by omega
    rw [List.getElem?_append_left (by simpa using hk)]
    simp [hk, hk2]
  · rw [List.getElem?_append_right (by simpa using hk), List.getElem?_drop]
    simp only [List.length_replicate]
    have : len + (k - len) = k := by omega
    simp [hk, this]

/-! ### The seed buffer of `write_passwords_for_site` -/

/-- The early return after "hmac fail": were the wrapper `hmacsha256` to report a failure,
the function would return at once, with the array `seed` as the hash left it.  The functions
of libsodium behind the wrapper return 0 on every input, so no call takes this branch. -/
theorem write_passwords_for_site_mem_failure (catalog : List Template) (x : Extern)
    (environ : List Bytes) (key site : Bytes) (counter : Int) (seed0 : Bytes)
    (hrc : (hmacsha256_out x seed0 (site_message (site_name site) counter) key).1 ≠ 0) :
    write_passwords_for_site_mem catalog x environ key site counter seed0
      = (⟨[Event.hmac (site_message (site_name site) counter) key,
            writes 2 (lit "hmac fail\n")], none⟩,
          (hmacsha256_out x seed0 (site_message (site_name site) counter) key).2) := by
  unfold site_message site_name at hrc ⊢
  simp only [write_passwords_for_site_mem]
  cases hs : is_ssh site <;> simp only [hs, Bool.false_eq_true, if_false, if_true] at hrc ⊢
  · simp only [hrc, ne_eq, not_false_eq_true, if_true]
  · simp only [hrc, ne_eq, not_false_eq_true, if_true]

theorem tag_fst (s : Secrets) (es : List Event) : (tag s es).map Prod.fst = es := by
  simp [tag, List.map_map, Function.comp_def]

theorem tag_snd (s : Secrets) (es : List Event) : ∀ em ∈ tag s es, em.2 = s := by
  intro em hem
  simp only [tag, List.mem_map] at hem
  obtain ⟨e, _, rfl⟩ := hem
  rfl

/-- The query loop with the secret buffers shows the events and the end of the query loop. -/
theorem query_loop_mem_events (catalog : List Template) (x : Extern) (environ : List Bytes)
    (key : Bytes) (lines : List Bytes) :
    ∀ pw : Option Bytes,
      (query_loop_mem catalog x environ ⟨pw, key⟩ lines).1.map Prod.fst
          = (query_loop catalog x environ key lines).1
      ∧ (query_loop_mem catalog x environ ⟨pw, key⟩ lines).2.1
          = (query_loop catalog x environ key lines).2 := by
  induction lines using query_loop.induct catalog x environ key with
  | case1 => intro pw; simp [query_loop_mem, query_loop]
  | case2 => intro pw; simp [query_loop_mem, query_loop]
  | case3 a c rest site r f hf =>
    intro pw
    simp only [r, site] at hf
    simp only [query_loop_mem, query_loop, hf, List.map_cons, tag_fst, List.cons_append,
      List.nil_append, and_self]
  | case4 a c rest site r hf ih =>
    intro pw
    simp only [r, site] at hf
    simp only [query_loop_mem, query_loop, hf, List.map_append, List.map_cons, tag_fst,
      (ih none).1, (ih none).2, List.cons_append, List.nil_append, and_self]

/-- The array `key` is changed only by the zeroing that precedes the normal return. -/
theorem query_loop_mem_key (catalog : List Template) (x : Extern) (environ : List Bytes)
    (key : Bytes) (lines : List Bytes) :
    ∀ (pw : Option Bytes) (code : Int),
      (query_loop_mem catalog x environ ⟨pw, key⟩ lines).2.1 = .returned code →
      (query_loop_mem catalog x environ ⟨pw, key⟩ lines).2.2.key = sodium_memzero key 64 := by
  induction lines using query_loop.induct catalog x environ key with
  | case1 => intro pw code _; simp only [query_loop_mem]
  | case2 => intro pw code _; simp only [query_loop_mem]
  | case3 a c rest site r f hf =>
    intro pw code h
    simp only [r, site] at hf
    simp only [query_loop_mem, hf] at h
    exact absurd h (by simp)
  | case4 a c rest site r hf ih =>
    intro pw code h
    simp only [r, site] at hf
    simp only [query_loop_mem, hf] at h ⊢
    exact ih none code h

/-- Once a line has been read the bytes at `pw` are not followed any more. -/
theorem query_loop_mem_unfollowed (catalog : List Template) (x : Extern) (environ : List Bytes)
    (key : Bytes) (lines : List Bytes) :
    ∀ em ∈ (query_loop_mem catalog x environ ⟨none, key⟩ lines).1, em.2.pw = none := by
  induction lines using query_loop.induct catalog x environ key with
  | case1 => simp [query_loop_mem]
  | case2 => simp [query_loop_mem]
  | case3 a c rest site r f hf =>
    simp only [r, site] at hf
    simp only [query_loop_mem, hf]
    intro em hem
    rcases List.mem_cons.mp hem with rfl | hem
    · rfl
    · rw [tag_snd _ _ em hem]
  | case4 a c rest site r hf ih =>
    simp only [r, site] at hf
    simp only [query_loop_mem, hf]
    intro em hem
    rcases List.mem_append.mp hem with hem | hem
    · rcases List.mem_cons.mp hem with rfl | hem
      · rfl
      · rw [tag_snd _ _ em hem]
    · exact ih em hem

/-- The query loop starts with the prompt for a site, issued in the state in which the loop
is entered; everything after it comes after a read. -/
theorem query_loop_mem_first (catalog : List Template) (x : Extern) (environ : List Bytes)
    (s : Secrets) (lines : List Bytes) :
    ∃ later : List (Event × Secrets),
      (query_loop_mem catalog x environ s lines).1 = (Event.prompt (lit "Site: "), s) :: later
      ∧ ∀ em ∈ later, em.2.pw = none := by
  match lines with
  | [] => exact ⟨_, rfl, by simp⟩
  | [_] => exact ⟨_, rfl, by simp⟩
  | a :: c :: rest =>
    simp only [query_loop_mem]
    split
    · refine ⟨_, rfl, fun em hem => by rw [tag_snd _ _ em hem]⟩
    · refine ⟨_, rfl, fun em hem => ?_⟩
      rcases List.mem_append.mp hem with hem | hem
      · rw [tag_snd _ _ em hem]
      · exact query_loop_mem_unfollowed catalog x environ s.key rest em hem

/-- The run of `main` after the passphrase has been read, with the secret buffers. -/
theorem main_mem_eq (catalog : List Template) (x : Extern) (envp : List Bytes)
    (pw key0 : Bytes) (lines : List Bytes) :
    main_mem catalog x envp pw key0 lines
      = if (x.scrypt (cstr pw) (master_salt envp) 32768 8 2 64).1 ≠ 0 then
          ([(Event.write 1 (lit "Deriving key..."), ⟨some pw, key0⟩),
            (Event.scrypt (cstr pw) (master_salt envp) 32768 8 2 64, ⟨some pw, key0⟩),
            (Event.write 2 (lit "scrypt fail\n"),
              ⟨some (sodium_memzero pw (strlen pw)),
                (x.scrypt (cstr pw) (master_salt envp) 32768 8 2 64).2⟩)],
            .returned (-1),
            ⟨some (sodium_memzero pw (strlen pw)),
              (x.scrypt (cstr pw) (master_salt envp) 32768 8 2 64).2⟩)
        else
          ([(Event.write 1 (lit "Deriving key..."), ⟨some pw, key0⟩),
            (Event.scrypt (cstr pw) (master_salt envp) 32768 8 2 64, ⟨some pw, key0⟩),
            (Event.write 1 (lit "\rKey derivation complete.\n"),
              ⟨some (sodium_memzero pw (strlen pw)),
                (x.scrypt (cstr pw) (master_salt envp) 32768 8 2 64).2⟩)]
            ++ (query_loop_mem catalog x envp
                  ⟨some (sodium_memzero pw (strlen pw)),
                    (x.scrypt (cstr pw) (master_salt envp) 32768 8 2 64).2⟩ lines).1,
            (query_loop_mem catalog x envp
                  ⟨some (sodium_memzero pw (strlen pw)),
                    (x.scrypt (cstr pw) (master_salt envp) 32768 8 2 64).2⟩ lines).2) := by
  have hiv : cstr (lit iv) = lit "com.lyndir.masterpassword" := by decide
  have h3 : cstr (lit "Deriving key...") = lit "Deriving key..." := by decide
  have h4 : cstr (lit "scrypt fail\n") = lit "scrypt fail\n" := by decide
  have h5 : cstr (lit "\rKey derivation complete.\n") = lit "\rKey derivation complete.\n" := by
    decide
  simp only [main_mem, Buffer.add_str, Buffer.append_with_be32_length_prefix, hiv, h3,
    h4, h5, writes, List.nil_append, tag, List.map_cons, List.map_nil]
  rfl

/-- The secret-buffer model shows the events and the end of `main`. -/
theorem main_mem_events (catalog : List Template) (x : Extern) (envp : List Bytes)
    (pw key0 : Bytes) (lines : List Bytes) :
    main_with catalog x envp (some pw) lines
      = ([Event.write 1 (lit "SLPM_FULLNAME='" ++ cstr (identity_name envp) ++ lit "'\n"),
          Event.prompt (lit "Passphrase: ")]
          ++ (main_mem catalog x envp pw key0 lines).1.map Prod.fst,
        (main_mem catalog x envp pw key0 lines).2.1) := by
  rw [main_with_some_eq, main_mem_eq]
  split
  · rfl
  · obtain ⟨h1, h2⟩ := query_loop_mem_events catalog x envp
      (x.scrypt (cstr pw) (master_salt envp) 32768 8 2 64).2 lines
      (some (sodium_memzero pw (strlen pw)))
    simp only [List.map_append, h1, h2, main_start, List.map_cons, List.map_nil,
      List.cons_append, List.nil_append, List.append_assoc]

/-- C12: once a passphrase has been read, the `strlen(pw)` bytes at `pw` are zero from the
first event after the scrypt call on, whether scrypt reports success or failure: on failure
at the write of "scrypt fail" and at the return, on success at the write that follows the
call and at the first prompt for a site, which precedes every read of a query.  The bytes
behind them are untouched. -/
theorem C12_passphrase_zeroed (x : Extern) (envp : List Bytes) (pw key0 : Bytes)
    (lines : List Bytes) :
    ∃ rest : List (Event × Secrets),
      (main_mem templates x envp pw key0 lines).1
        = [(Event.write 1 (lit "Deriving key..."), ⟨some pw, key0⟩),
            (Event.scrypt (cstr pw) (master_salt envp) 32768 8 2 64, ⟨some pw, key0⟩)]
          ++ rest
      ∧ ((x.scrypt (cstr pw) (master_salt envp) 32768 8 2 64).1 ≠ 0 →
          rest = [(Event.write 2 (lit "scrypt fail\n"),
                  ⟨some (sodium_memzero pw (strlen pw)),
                    (x.scrypt (cstr pw) (master_salt envp) 32768 8 2 64).2⟩)]
          ∧ (main_mem templates x envp pw key0 lines).2.1 = .returned (-1)
          ∧ (main_mem templates x envp pw key0 lines).2.2.pw
              = some (sodium_memzero pw (strlen pw)))
      ∧ ((x.scrypt (cstr pw) (master_salt envp) 32768 8 2 64).1 = 0 →
          ∃ later : List (Event × Secrets),
            rest = (Event.write 1 (lit "\rKey derivation complete.\n"),
                    ⟨some (sodium_memzero pw (strlen pw)),
                      (x.scrypt (cstr pw) (master_salt envp) 32768 8 2 64).2⟩)
                  :: (Event.prompt (lit "Site: "),
                      ⟨some (sodium_memzero pw (strlen pw)),
                        (x.scrypt (cstr pw) (master_salt envp) 32768 8 2 64).2⟩)
                  :: later
            ∧ ∀ em ∈ later, em.2.pw = none)
      ∧ sodium_memzero pw (strlen pw) = List.replicate (strlen pw) 0 ++ pw.drop (strlen pw)
      ∧ (∀ k, k < strlen pw → (sodium_memzero pw (strlen pw))[k]? = some 0)
      ∧ main x envp (some pw) lines
        = ([Event.write 1 (lit "SLPM_FULLNAME='" ++ cstr (identity_name envp) ++ lit "'\n"),
            Event.prompt (lit "Passphrase: ")]
            ++ (main_mem templates x envp pw key0 lines).1.map Prod.fst,
          (main_mem templates x envp pw key0 lines).2.1) := by
  have hz : sodium_memzero pw (strlen pw)
      = List.replicate (strlen pw) 0 ++ pw.drop (strlen pw) :=
    sodium_memzero_prefix pw _ (strlen_le pw)
  have hk : ∀ k, k < strlen pw → (sodium_memzero pw (strlen pw))[k]? = some 0 := by
    intro k hk
    have hle := strlen_le pw
    rw [(sodium_memzero_spec pw (strlen pw)).2.2 k]
    simp [hk, show k < pw.length by omega]
  have hev := main_mem_events templates x envp pw key0 lines
  obtain ⟨later, hl1, hl2⟩ := query_loop_mem_first templates x envp
      ⟨some (sodium_memzero pw (strlen pw)),
        (x.scrypt (cstr pw) (master_salt envp) 32768 8 2 64).2⟩ lines
  rw [main_mem_eq]
  by_cases hrc : (x.scrypt (cstr pw) (master_salt envp) 32768 8 2 64).1 = 0
  · rw [if_neg (by simpa using hrc), hl1]
    refine ⟨_, rfl, fun h => absurd hrc h, fun _ => ⟨later, rfl, hl2⟩, hz, hk, ?_⟩
    rw [← hl1]
    have := hev
    rw [main_mem_eq, if_neg (by simpa using hrc)] at this
    exact this
  · rw [if_pos hrc]
    refine ⟨_, rfl, fun _ => ⟨rfl, rfl, rfl⟩, fun h => absurd h hrc, hz, hk, ?_⟩
    have := hev
    rw [main_mem_eq, if_pos hrc] at this
    exact this

/-- C12, for the passphrase "test" and one query. -/
theorem C12_passphrase_zeroed_witness :
    ∃ rest : List (Event × Secrets),
      (main_mem templates (sample_calls (List.range 32) false) []
              (lit "test") (List.replicate 64 170) [lit "example.com", lit "1"]).1
        = [(Event.write 1 (lit "Deriving key..."), ⟨some (lit "test"), List.replicate 64 170⟩),
            (Event.scrypt (cstr (lit "test")) (master_salt []) 32768 8 2 64,
              ⟨some (lit "test"), List.replicate 64 170⟩)]
          ++ rest
      ∧ (((sample_calls (List.range 32) false).scrypt (cstr (lit "test"))
                (master_salt []) 32768 8 2 64).1 ≠ 0 →
          rest = [(Event.write 2 (lit "scrypt fail\n"),
                  ⟨some (sodium_memzero (lit "test") (strlen (lit "test"))),
                    ((sample_calls (List.range 32) false).scrypt (cstr (lit "test"))
                (master_salt []) 32768 8 2 64).2⟩)]
          ∧ (main_mem templates (sample_calls (List.range 32) false) []
              (lit "test") (List.replicate 64 170) [lit "example.com", lit "1"]).2.1
              = .returned (-1)
          ∧ (main_mem templates (sample_calls (List.range 32) false) []
              (lit "test") (List.replicate 64 170) [lit "example.com", lit "1"]).2.2.pw
              = some (sodium_memzero (lit "test") (strlen (lit "test"))))
      ∧ (((sample_calls (List.range 32) false).scrypt (cstr (lit "test"))
                (master_salt []) 32768 8 2 64).1 = 0 →
          ∃ later : List (Event × Secrets),
            rest = (Event.write 1 (lit "\rKey derivation complete.\n"),
                    ⟨some (sodium_memzero (lit "test") (strlen (lit "test"))),
                      ((sample_calls (List.range 32) false).scrypt (cstr (lit "test"))
                (master_salt []) 32768 8 2 64).2⟩)
                  :: (Event.prompt (lit "Site: "),
                      ⟨some (sodium_memzero (lit "test") (strlen (lit "test"))),
                        ((sample_calls (List.range 32) false).scrypt (cstr (lit "test"))
                (master_salt []) 32768 8 2 64).2⟩)
                  :: later
            ∧ ∀ em ∈ later, em.2.pw = none)
      ∧ sodium_memzero (lit "test") (strlen (lit "test")) = List.replicate (strlen (lit "test")) 0
            ++ (lit "test").drop (strlen (lit "test"))
      ∧ (∀ k, k < strlen (lit "test") →
          (sodium_memzero (lit "test") (strlen (lit "test")))[k]? = some 0)
      ∧ main (sample_calls (List.range 32) false) [] (some (lit "test"))
          [lit "example.com", lit "1"]
        = ([Event.write 1 (lit "SLPM_FULLNAME='" ++ cstr (identity_name []) ++ lit "'\n"),
            Event.prompt (lit "Passphrase: ")]
            ++ (main_mem templates (sample_calls (List.range 32) false) []
              (lit "test") (List.replicate 64 170) [lit "example.com", lit "1"]).1.map Prod.fst,
          (main_mem templates (sample_calls (List.range 32) false) []
              (lit "test") (List.replicate 64 170) [lit "example.com", lit "1"]).2.1) :=
  C12_passphrase_zeroed (sample_calls (List.range 32) false) [] (lit "test")
    (List.replicate 64 170) [lit "example.com", lit "1"]

/-- When scrypt succeeds and `main` returns, the array `key` has been zeroed. -/
theorem main_mem_key_zeroed (catalog : List Template) (x : Extern) (envp : List Bytes)
    (pw key0 : Bytes) (lines : List Bytes) (code : Int)
    (hrc : (x.scrypt (cstr pw) (master_salt envp) 32768 8 2 64).1 = 0)
    (hret : (main_mem catalog x envp pw key0 lines).2.1 = .returned code) :
    (main_mem catalog x envp pw key0 lines).2.2.key
      = sodium_memzero (x.scrypt (cstr pw) (master_salt envp) 32768 8 2 64).2 64 := by
  rw [main_mem_eq] at hret ⊢
  simp only [hrc, ne_eq, not_true_eq_false, if_false] at hret ⊢
  exact query_loop_mem_key catalog x envp _ lines _ code hret

/-- When scrypt fails, `main` returns -1 with the array `key` as scrypt left it. -/
theorem main_mem_key_on_failure (catalog : List Template) (x : Extern) (envp : List Bytes)
    (pw key0 : Bytes) (lines : List Bytes)
    (hrc : (x.scrypt (cstr pw) (master_salt envp) 32768 8 2 64).1 ≠ 0) :
    (main_mem catalog x envp pw key0 lines).2
      = (.returned (-1), ⟨some (sodium_memzero pw (strlen pw)),
          (x.scrypt (cstr pw) (master_salt envp) 32768 8 2 64).2⟩) := by
  rw [main_mem_eq]
  simp only [hrc, ne_eq, not_false_eq_true, if_true]

/-- C13, the failing run: when scrypt reports failure `main` zeroes the passphrase, writes
"scrypt fail" and returns -1 without zeroing the array `key`, which still holds what the
call left in it. -/
theorem C13_key_not_zeroed_on_scrypt_failure :
    main_mem templates (failing_calls 0 [] (List.replicate 64 255)) [] (lit "test")
        (List.replicate 64 0) [lit "example.com", lit "1"]
      = ([(Event.write 1 (lit "Deriving key..."), ⟨some (lit "test"), List.replicate 64 0⟩),
          (Event.scrypt (lit "test") (lit "com.lyndir.masterpassword" ++ [0, 0, 0, 0])
              32768 8 2 64, ⟨some (lit "test"), List.replicate 64 0⟩),
          (Event.write 2 (lit "scrypt fail\n"),
            ⟨some [0, 0, 0, 0], List.replicate 64 255⟩)],
        Exit.returned (-1), ⟨some [0, 0, 0, 0], List.replicate 64 255⟩) := by
  set_option maxRecDepth 1000000 in decide

/-! ### `sodium_memcmp` -/

theorem or_eq_zero (a b : Nat) : a ||| b = 0 ↔ a = 0 ∧ b = 0 := by
  constructor
  · intro h
    have hbit : ∀ i, (a.testBit i || b.testBit i) = false := by
      intro i
      rw [← Nat.testBit_or, h, Nat.zero_testBit]
    constructor
    · apply Nat.zero_of_testBit_eq_false
      intro i
      have := hbit i
      simp only [Bool.or_eq_false_iff] at this
      exact this.1
    · apply Nat.zero_of_testBit_eq_false
      intro i
      have := hbit i
      simp only [Bool.or_eq_false_iff] at this
      exact this.2
  · rintro ⟨rfl, rfl⟩
    rfl

/-- The value returned for the accumulated byte `d`. -/
theorem sodium_memcmp_result_eq (d : Nat) (h : d < 256) :
    sodium_memcmp_result d = if d = 0 then 0 else -1 := by
  have key : ∀ d < 256, sodium_memcmp_result d = if d = 0 then 0 else -1 := by
    set_option maxRecDepth 1000000 in decide
  exact key d h

/-- The comparison loop, entered at index `i` with the byte `d` and enough fuel, is left at
index `len` whatever the buffers hold, with the OR of `d` and the remaining XORs. -/
theorem sodium_memcmp_loop_spec (b1 b2 : Bytes) (len : Nat)
    (hb1 : ∀ b ∈ b1, b < 256) (hb2 : ∀ b ∈ b2, b < 256) :
    ∀ (fuel i d : Nat), i ≤ len → len - i < fuel → d < 256 →
      sodium_memcmp_loop fuel b1 b2 len i d
        = some ((List.range' i (len - i)).foldl
            (fun d k => d ||| (b1.getD k 0 ^^^ b2.getD k 0)) d, len) := by
  have hget : ∀ (l : Bytes), (∀ b ∈ l, b < 256) → ∀ k, l.getD k 0 < 2 ^ 8 := by
    intro l hl k
    by_cases hk : k < l.length
    · rw [List.getD_eq_getElem _ _ hk]; exact hl _ (List.getElem_mem _)
    · rw [List.getD_eq_default _ _ (by omega)]; decide
  intro fuel
  induction fuel with
  | zero => intro i d _ h; omega
  | succ fuel ih =>
    intro i d hi hf hd
    rw [sodium_memcmp_loop]
    by_cases hlt : i < len
    · have hx : d ||| (b1.getD i 0 ^^^ b2.getD i 0) < 2 ^ 8 :=
        Nat.or_lt_two_pow hd (Nat.xor_lt_two_pow (hget b1 hb1 i) (hget b2 hb2 i))
      have hmod : (d ||| (b1.getD i 0 ^^^ b2.getD i 0)) % 256
          = d ||| (b1.getD i 0 ^^^ b2.getD i 0) := Nat.mod_eq_of_lt hx
      simp only [hlt, if_true, hmod]
      rw [ih (i + 1) _ (by omega) (by omega) hx]
      have hlen : len - i = (len - (i + 1)) + 1 := by omega
      rw [hlen, List.range'_succ, List.foldl_cons]
    · have : len - i = 0 := by omega
      have hil : i = len := by omega
      simp [hlt, this, hil]

/-- The accumulated byte stays below 256 and is zero exactly when all the pairs are equal. -/
theorem foldl_or_xor (b1 b2 : Bytes) (hb1 : ∀ b ∈ b1, b < 256) (hb2 : ∀ b ∈ b2, b < 256) :
    ∀ (ks : List Nat) (d : Nat), d < 256 →
      ks.foldl (fun d k => d ||| (b1.getD k 0 ^^^ b2.getD k 0)) d < 256
      ∧ (ks.foldl (fun d k => d ||| (b1.getD k 0 ^^^ b2.getD k 0)) d = 0
          ↔ d = 0 ∧ ∀ k ∈ ks, b1.getD k 0 = b2.getD k 0) := by
  have hget : ∀ (l : Bytes), (∀ b ∈ l, b < 256) → ∀ k, l.getD k 0 < 2 ^ 8 := by
    intro l hl k
    by_cases hk : k < l.length
    · rw [List.getD_eq_getElem _ _ hk]; exact hl _ (List.getElem_mem _)
    · rw [List.getD_eq_default _ _ (by omega)]; decide
  intro ks
  induction ks with
  | nil => intro d hd; simp [hd]
  | cons k ks ih =>
    intro d hd
    have hx : d ||| (b1.getD k 0 ^^^ b2.getD k 0) < 2 ^ 8 :=
      Nat.or_lt_two_pow hd (Nat.xor_lt_two_pow (hget b1 hb1 k) (hget b2 hb2 k))
    obtain ⟨h1, h2⟩ := ih _ hx
    refine ⟨h1, ?_⟩
    rw [List.foldl_cons, h2, or_eq_zero, Nat.xor_eq_zero]
    simp only [List.mem_cons, forall_eq_or_imp]
    tauto

/-- Two buffers agree on their first `len` bytes exactly when they agree at each index. -/
theorem take_eq_iff (b1 b2 : Bytes) (len : Nat) (h1 : len ≤ b1.length) (h2 : len ≤ b2.length) :
    b1.take len = b2.take len ↔ ∀ k, k < len → b1.getD k 0 = b2.getD k 0 := by
  constructor
  · intro h k hk
    have e1 : (b1.take len).getD k 0 = b1.getD k 0 := by
      simp [List.getD_eq_getElem?_getD, List.getElem?_take, hk]
    have e2 : (b2.take len).getD k 0 = b2.getD k 0 := by
      simp [List.getD_eq_getElem?_getD, List.getElem?_take, hk]
    rw [← e1, ← e2, h]
  · intro h
    apply List.ext_getElem?
    intro k
    by_cases hk : k < len
    · have := h k hk
      rw [List.getD_eq_getElem _ _ (by omega), List.getD_eq_getElem _ _ (by omega)] at this
      simp [List.getElem?_take, hk, List.getElem?_eq_getElem (show k < b1.length by omega),
        List.getElem?_eq_getElem (show k < b2.length by omega), this]
    · simp [List.getElem?_take, hk]

/-- C14: for buffers of bytes that hold at least `len` bytes, `sodium_memcmp` returns 0 when
the first `len` bytes are pairwise equal and -1 otherwise, and nothing else; the loop is
always left at index `len`, whatever the bytes are, and the result is computed from the OR
of all byte XORs. -/
theorem C14_memcmp (b1 b2 : Bytes) (len : Nat) (h1 : len ≤ b1.length) (h2 : len ≤ b2.length)
    (hb1 : ∀ b ∈ b1, b < 256) (hb2 : ∀ b ∈ b2, b < 256) :
    (b1.take len = b2.take len → sodium_memcmp b1 b2 len = 0)
    ∧ (b1.take len ≠ b2.take len → sodium_memcmp b1 b2 len = -1)
    ∧ (sodium_memcmp b1 b2 len = 0 ∨ sodium_memcmp b1 b2 len = -1)
    ∧ sodium_memcmp_loop (len + 1) b1 b2 len 0 0 = some (or_of_xors b1 b2 len, len)
    ∧ sodium_memcmp b1 b2 len = sodium_memcmp_result (or_of_xors b1 b2 len)
    ∧ (or_of_xors b1 b2 len = 0 ↔ ∀ k, k < len → b1.getD k 0 = b2.getD k 0) := by
  have hloop := sodium_memcmp_loop_spec b1 b2 len hb1 hb2 (len + 1) 0 0 (by omega) (by omega)
    (by omega)
  rw [Nat.sub_zero, ← List.range_eq_range'] at hloop
  have hloop2 : sodium_memcmp_loop (len + 1) b1 b2 len 0 0 = some (or_of_xors b1 b2 len, len) :=
    hloop
  have hres : sodium_memcmp b1 b2 len = sodium_memcmp_result (or_of_xors b1 b2 len) := by
    unfold sodium_memcmp
    rw [hloop2]
  obtain ⟨hlt, hzero⟩ := foldl_or_xor b1 b2 hb1 hb2 (List.range len) 0 (by omega)
  have hz : or_of_xors b1 b2 len = 0 ↔ ∀ k, k < len → b1.getD k 0 = b2.getD k 0 := by
    unfold or_of_xors
    rw [hzero]
    simp [List.mem_range]
  have hval := sodium_memcmp_result_eq (or_of_xors b1 b2 len) hlt
  have htake := take_eq_iff b1 b2 len h1 h2
  refine ⟨?_, ?_, ?_, hloop2, hres, hz⟩
  · intro h
    rw [hres, hval, if_pos (hz.mpr (htake.mp h))]
  · intro h
    rw [hres, hval, if_neg (fun h0 => h (htake.mpr (hz.mp h0)))]
  · rw [hres, hval]
    split
    · exact Or.inl rfl
    · exact Or.inr rfl

/-- C14, for two buffers that differ in their third byte. -/
theorem C14_memcmp_witness :
    ([1, 2, 3, 9].take 3 = [1, 2, 4, 9].take 3 → sodium_memcmp [1, 2, 3, 9] [1, 2, 4, 9] 3 = 0)
    ∧ ([1, 2, 3, 9].take 3 ≠ [1, 2, 4, 9].take 3 → sodium_memcmp [1, 2, 3, 9] [1, 2, 4, 9] 3 = -1)
    ∧ (sodium_memcmp [1, 2, 3, 9] [1, 2, 4, 9] 3 = 0 ∨ sodium_memcmp [1, 2, 3, 9] [1, 2, 4, 9] 3 =
        -1)
    ∧ sodium_memcmp_loop 4 [1, 2, 3, 9] [1, 2, 4, 9] 3 0 0 = some (or_of_xors [1, 2, 3, 9] [1, 2,
        4, 9] 3, 3)
    ∧ sodium_memcmp [1, 2, 3, 9] [1, 2, 4, 9] 3 = sodium_memcmp_result (or_of_xors [1, 2, 3, 9]
        [1, 2, 4, 9] 3)
    ∧ (or_of_xors [1, 2, 3, 9] [1, 2, 4, 9] 3 = 0 ↔ ∀ k, k < 3 → [1, 2, 3, 9].getD k 0 = [1, 2, 4,
        9].getD k 0) :=
  C14_memcmp [1, 2, 3, 9] [1, 2, 4, 9] 3 (by decide) (by decide) (by decide) (by decide)

/-! ### `sodium_memzero` -/

/-- C15: `sodium_memzero(p, len)` always leaves its loop, and does so at index `len`, that
is after exactly `len` writes (one per increment of the index); afterwards the bytes
`p[0 .. len)` are zero and every byte at an index `>= len` is as before. -/
theorem C15_memzero (pnt : Bytes) (len : Nat) :
    (∀ fuel, len < fuel →
        sodium_memzero_loop fuel pnt len 0 = some (sodium_memzero pnt len, len))
    ∧ (sodium_memzero pnt len).length = pnt.length
    ∧ (∀ k, k < len → k < pnt.length → (sodium_memzero pnt len)[k]? = some 0)
    ∧ (∀ k, len ≤ k → (sodium_memzero pnt len)[k]? = pnt[k]?)
    ∧ (len ≤ pnt.length → sodium_memzero pnt len = List.replicate len 0 ++ pnt.drop len) := by
  obtain ⟨h1, h2, h3⟩ := sodium_memzero_spec pnt len
  refine ⟨?_, h2, ?_, ?_, sodium_memzero_prefix pnt len⟩
  · intro fuel hf
    obtain ⟨mem, g1, _, g3⟩ := sodium_memzero_loop_spec fuel pnt len 0 (by omega) (by omega)
    have : mem = sodium_memzero pnt len := by
      apply List.ext_getElem?
      intro k
      rw [g3 k, h3 k]
      simp
    rw [g1, this]
  · intro k hk hk2
    rw [h3 k]
    simp [hk, hk2]
  · intro k hk
    rw [h3 k]
    have : ¬ (k < len ∧ k < pnt.length) := by omega
    simp [this]

/-- C15, for a buffer of four bytes of which the first two are zeroed. -/
theorem C15_memzero_witness :
    ((∀ fuel, 2 < fuel →
        sodium_memzero_loop fuel [7, 8, 9, 10] 2 0 = some (sodium_memzero [7, 8, 9, 10] 2, 2))
      ∧ (sodium_memzero [7, 8, 9, 10] 2).length = [7, 8, 9, 10].length
      ∧ (∀ k, k < 2 → k < [7, 8, 9, 10].length →
          (sodium_memzero [7, 8, 9, 10] 2)[k]? = some 0)
      ∧ (∀ k, 2 ≤ k → (sodium_memzero [7, 8, 9, 10] 2)[k]? = [7, 8, 9, 10][k]?)
      ∧ (2 ≤ [7, 8, 9, 10].length →
          sodium_memzero [7, 8, 9, 10] 2 = List.replicate 2 0 ++ [7, 8, 9, 10].drop 2))
    ∧ sodium_memzero [7, 8, 9, 10] 2 = [0, 0, 9, 10] :=
  ⟨C15_memzero [7, 8, 9, 10] 2, by decide⟩

/-! ### `getenv` -/

/-- An entry passes the test of `getenv` exactly when it starts with the name followed by
the character `=`. -/
theorem getenv_entry (e name : Bytes) (hname : ∀ b ∈ name, b ≠ 0 ∧ b < 256)
    (he : ∀ b ∈ e, b < 256) :
    (strncmp e name (strlen name) = 0 ∧ e.getD (strlen name) 0 = '='.toNat)
      ↔ e.take (name.length + 1) = name ++ ['='.toNat] := by
  have hlen : strlen name = name.length := strlen_of_nz name (fun b hb => (hname b hb).1)
  rw [hlen, strncmp_prefix name hname e he]
  constructor
  · rintro ⟨⟨t, rfl⟩, h2⟩
    cases t with
    | nil =>
      rw [List.append_nil, List.getD_eq_default _ _ (by omega)] at h2
      exact absurd h2 (by decide)
    | cons c t =>
      have hc : c = '='.toNat := by
        rw [List.getD_eq_getElem?_getD, List.getElem?_append_right (by omega)] at h2
        simpa using h2
      subst hc
      rw [show name ++ '='.toNat :: t = (name ++ ['='.toNat]) ++ t by simp,
        List.take_left' (by simp)]
  · intro h
    have he2 : e = (name ++ ['='.toNat]) ++ e.drop (name.length + 1) := by
      rw [← h]; exact (List.take_append_drop _ e).symm
    refine ⟨⟨'='.toNat :: e.drop (name.length + 1), by rw [he2]; simp⟩, ?_⟩
    rw [he2, List.getD_eq_getElem?_getD, List.append_assoc,
      List.getElem?_append_right (by omega)]
    simp

/-- The function `getenv` returns what follows the first entry that starts with the name
and `=`. -/
theorem getenv_eq_find (environ : List Bytes) (name : Bytes)
    (hname : ∀ b ∈ name, b ≠ 0 ∧ b < 256) (henv : ∀ e ∈ environ, ∀ b ∈ e, b < 256) :
    getenv environ name
      = (environ.find? (fun e => decide (e.take (name.length + 1) = name ++ ['='.toNat]))).map
          (fun e => e.drop (name.length + 1)) := by
  have hlen : strlen name = name.length := strlen_of_nz name (fun b hb => (hname b hb).1)
  induction environ with
  | nil => rfl
  | cons e rest ih =>
    have hent := getenv_entry e name hname (henv e (List.mem_cons_self _ _))
    have ih2 := ih (fun e' he' => henv e' (List.mem_cons_of_mem _ he'))
    rw [getenv, List.find?_cons]
    by_cases hm : e.take (name.length + 1) = name ++ ['='.toNat]
    · rw [if_pos (hent.mpr hm)]
      simp [hm, hlen]
    · rw [if_neg (fun h => hm (hent.mp h)), ih2, decide_eq_false hm]

/-- C16: for an environment of byte strings and a name (a C string of bytes), `getenv`
returns the text that follows `=` in the first entry that starts with the name immediately
followed by `=`, and the null pointer when no entry does; an entry whose key merely starts
with the name ("USERNAME=x" for "USER"), that is shorter than the name, or that lacks the
`=` is not matched.  Hence, when `SLPM_FULLNAME` is absent the identity name of `main` is ""
and the salt ends in a zero length, and when `USER` is absent the user of the public line is
"user". -/
theorem C16_getenv (environ : List Bytes) (name : Bytes)
    (hname : ∀ b ∈ name, b ≠ 0 ∧ b < 256) (henv : ∀ e ∈ environ, ∀ b ∈ e, b < 256) :
    getenv environ name
        = (environ.find? (fun e => decide (e.take (name.length + 1) = name ++ ['='.toNat]))).map
            (fun e => e.drop (name.length + 1))
    ∧ (getenv environ name = none
        ↔ ∀ e ∈ environ, e.take (name.length + 1) ≠ name ++ ['='.toNat])
    ∧ getenv [lit "USERNAME=x"] (lit "USER") = none
    ∧ getenv [lit "USE=x"] (lit "USER") = none
    ∧ getenv [lit "USER"] (lit "USER") = none
    ∧ getenv [lit "USERNAME=x", lit "USER=alice", lit "USER=bob"] (lit "USER")
        = some (lit "alice")
    ∧ ((∀ e ∈ environ, e.take 14 ≠ lit "SLPM_FULLNAME=") →
        identity_name environ = lit ""
        ∧ master_salt environ = lit "com.lyndir.masterpassword" ++ [0, 0, 0, 0])
    ∧ ((∀ e ∈ environ, e.take 5 ≠ lit "USER=") → user_name environ = lit "user") := by
  have hfind := getenv_eq_find environ name hname henv
  have hnone : ∀ (n : Bytes), (∀ b ∈ n, b ≠ 0 ∧ b < 256) →
      (∀ e ∈ environ, e.take (n.length + 1) ≠ n ++ ['='.toNat]) → getenv environ n = none := by
    intro n hn h
    rw [getenv_eq_find environ n hn henv, Option.map_eq_none', List.find?_eq_none]
    intro e he
    simpa using h e he
  refine ⟨hfind, ?_, by decide, by decide, by decide, by decide, ?_, ?_⟩
  · rw [hfind, Option.map_eq_none', List.find?_eq_none]
    simp
  · intro h
    have hg : getenv environ (lit "SLPM_FULLNAME") = none :=
      hnone (lit "SLPM_FULLNAME") (by decide) h
    have hid : identity_name environ = lit "" := by simp [identity_name, hg]
    refine ⟨hid, ?_⟩
    rw [master_salt, hid]
    rfl
  · intro h
    have hg : getenv environ (lit "USER") = none := hnone (lit "USER") (by decide) h
    simp [user_name, hg]

/-- C16, for the name "USER" in an environment that also holds "USERNAME=x". -/
theorem C16_getenv_witness :
    (getenv [lit "HOME=/root", lit "USERNAME=x", lit "USER=alice"]
          (lit "USER")
        = ([lit "HOME=/root", lit "USERNAME=x", lit "USER=alice"].find? (fun e => decide (e.take
            ((lit "USER").length + 1) = lit "USER" ++ ['='.toNat]))).map
            (fun e => e.drop ((lit "USER").length + 1))
    ∧ (getenv [lit "HOME=/root", lit "USERNAME=x", lit "USER=alice"]
          (lit "USER") = none
        ↔ ∀ e ∈ [lit "HOME=/root", lit "USERNAME=x", lit "USER=alice"], e.take ((lit
            "USER").length + 1) ≠ lit "USER" ++ ['='.toNat])
    ∧ getenv [lit "USERNAME=x"] (lit "USER") = none
    ∧ getenv [lit "USE=x"] (lit "USER") = none
    ∧ getenv [lit "USER"] (lit "USER") = none
    ∧ getenv [lit "USERNAME=x", lit "USER=alice", lit "USER=bob"] (lit "USER")
        = some (lit "alice")
    ∧ ((∀ e ∈ [lit "HOME=/root", lit "USERNAME=x", lit "USER=alice"], e.take 14 ≠ lit
        "SLPM_FULLNAME=") →
        identity_name
            [lit "HOME=/root", lit "USERNAME=x", lit "USER=alice"] = lit ""
        ∧ master_salt [lit "HOME=/root", lit "USERNAME=x", lit "USER=alice"] = lit
            "com.lyndir.masterpassword" ++ [0, 0, 0, 0])
    ∧ ((∀ e ∈ [lit "HOME=/root", lit "USERNAME=x", lit "USER=alice"], e.take 5 ≠ lit "USER=") →
        user_name [lit "HOME=/root", lit "USERNAME=x", lit "USER=alice"] = lit "user"))
    ∧ getenv [lit "HOME=/root", lit "USERNAME=x", lit "USER=alice"] (lit "USER")
        = some (lit "alice") :=
  ⟨C16_getenv [lit "HOME=/root", lit "USERNAME=x", lit "USER=alice"] (lit "USER")
    (by decide) (by decide), by decide⟩

/-! ### The framing of the hashed message -/

theorem be32_injective (m n : Nat) (hm : m < 2 ^ 32) (hn : n < 2 ^ 32) (h : be32 m = be32 n) :
    m = n := by
  rw [← be32_value_be32 m hm, ← be32_value_be32 n hn, h]

/-- The message determines the site name and the counter. -/
theorem site_message_injective (s1 s2 : Bytes) (c1 c2 : Int)
    (h1 : strlen s1 < 2 ^ 32) (h2 : strlen s2 < 2 ^ 32)
    (hc1 : 0 ≤ c1 ∧ c1 < 2 ^ 32) (hc2 : 0 ≤ c2 ∧ c2 < 2 ^ 32)
    (heq : site_message s1 c1 = site_message s2 c2) : cstr s1 = cstr s2 ∧ c1 = c2 := by
  rw [site_message_eq, site_message_eq, List.append_assoc, List.append_assoc,
    List.append_assoc, List.append_assoc] at heq
  have h3 := List.append_cancel_left heq
  obtain ⟨h4, h5⟩ := List.append_inj h3 (by rw [be32_length, be32_length])
  have hlen : strlen s1 = strlen s2 := be32_injective _ _ h1 h2 h4
  obtain ⟨h6, h7⟩ := List.append_inj h5 (by rw [cstr_length, cstr_length, hlen])
  have h8 := be32_injective _ _ (by omega) (by omega) h7
  exact ⟨h6, by omega⟩

/-- C17: the framing of the hashed message is injective.  For site names shorter than
`2 ^ 32` bytes and counters in `[0, 2 ^ 32)`, equal messages have the same site name and the
same counter; in particular two different counters give different messages for one site.
The message is the one `write_passwords_for_site` hands to the keyed hash. -/
theorem C17_framing_injective (s1 s2 : Bytes) (c1 c2 : Int)
    (h1 : strlen s1 < 2 ^ 32) (h2 : strlen s2 < 2 ^ 32)
    (hc1 : 0 ≤ c1 ∧ c1 < 2 ^ 32) (hc2 : 0 ≤ c2 ∧ c2 < 2 ^ 32) :
    (site_message s1 c1 = site_message s2 c2 → cstr s1 = cstr s2 ∧ c1 = c2)
    ∧ ((∀ b ∈ s1, b ≠ 0) → (∀ b ∈ s2, b ≠ 0) →
        site_message s1 c1 = site_message s2 c2 → s1 = s2 ∧ c1 = c2)
    ∧ (c1 ≠ c2 → site_message s1 c1 ≠ site_message s1 c2)
    ∧ (∀ (x : Extern) (environ : List Bytes) (key site : Bytes), site_name site = s1 →
        ∃ rest, (write_passwords_for_site x environ key site c1).events
          = Event.hmac (site_message s1 c1) key :: rest) := by
  refine ⟨site_message_injective s1 s2 c1 c2 h1 h2 hc1 hc2, ?_, ?_, ?_⟩
  · intro hz1 hz2 heq
    obtain ⟨h, hc⟩ := site_message_injective s1 s2 c1 c2 h1 h2 hc1 hc2 heq
    rw [cstr_of_nz s1 hz1, cstr_of_nz s2 hz2] at h
    exact ⟨h, hc⟩
  · intro hne heq
    exact hne (site_message_injective s1 s1 c1 c2 h1 h1 hc1 hc2 heq).2
  · intro x environ key site hs
    obtain ⟨rest, hr, _⟩ := write_passwords_for_site_with_events templates x environ key site c1
    exact ⟨rest, by rw [write_passwords_for_site, hr, hs]⟩

/-- C17, for the sites "example.com" and "example.org" and the counters 1 and 2. -/
theorem C17_framing_injective_witness :
    (site_message (lit "example.com") 1 = site_message (lit "example.org") 2 → cstr (lit
        "example.com") = cstr (lit "example.org") ∧ (1 : Int) = 2)
    ∧ ((∀ b ∈ (lit "example.com"), b ≠ 0) → (∀ b ∈ (lit "example.org"), b ≠ 0) →
        site_message (lit "example.com") 1 = site_message (lit "example.org") 2 → (lit
            "example.com") = (lit "example.org") ∧ (1 : Int) = 2)
    ∧ ((1 : Int) ≠ 2 → site_message (lit "example.com") 1 ≠ site_message (lit "example.com") 2)
    ∧ (∀ (x : Extern) (environ : List Bytes) (key site : Bytes), site_name site = (lit
        "example.com") →
        ∃ rest, (write_passwords_for_site x environ key site 1).events
          = Event.hmac (site_message (lit "example.com") 1) key :: rest) :=
  C17_framing_injective (lit "example.com") (lit "example.org") 1 2 (by decide) (by decide)
    (by decide) (by decide)

/-! ### The seed of an SSH identity -/

/-- C18: for a site name `X` of bytes that does not begin with "ssh ", the queries
"ssh " ++ X and X route differently but hash the same message with the same key, so that
the keyed hash returns the same seed for both; that seed is the key-generation seed of
`output_site_ssh` for the first query and the seed of `output_site_generic` for the
second. -/
theorem C18_ssh_seed_is_site_seed (x : Extern) (environ : List Bytes) (key X : Bytes)
    (counter : Int) (hX : ∀ b ∈ X, b < 256) (hns : X.take 4 ≠ lit "ssh ") :
    is_ssh (lit "ssh " ++ X) = true ∧ is_ssh X = false
    ∧ site_name (lit "ssh " ++ X) = X ∧ site_name X = X
    ∧ (∃ r1 r2 : List Event,
        (write_passwords_for_site x environ key (lit "ssh " ++ X) counter).events
          = Event.hmac (site_message X counter) key :: r1
        ∧ (write_passwords_for_site x environ key X counter).events
          = Event.hmac (site_message X counter) key :: r2)
    ∧ (∀ seed : Seed, seed.length = 32 →
        hmacsha256 x (site_message X counter) key = .ok seed →
        write_passwords_for_site x environ key (lit "ssh " ++ X) counter
          = ⟨Event.hmac (site_message X counter) key
                :: (output_site_ssh x environ seed X).events,
              (output_site_ssh x environ seed X).fault⟩
        ∧ Event.agent_add (x.seed_keypair seed).1 (x.seed_keypair seed).2
              (lit "slpm+" ++ cstr X)
            ∈ (write_passwords_for_site x environ key (lit "ssh " ++ X) counter).events
        ∧ ∃ out, output_site_generic seed = .ok [Event.write 1 out]
            ∧ write_passwords_for_site x environ key X counter
              = ⟨[Event.hmac (site_message X counter) key, Event.write 1 out], none⟩) := by
  have hbytes : ∀ b ∈ lit "ssh " ++ X, b < 256 := by
    intro b hb
    rcases List.mem_append.mp hb with hb | hb
    · have hl : ∀ b ∈ lit "ssh ", b < 256 := by decide
      exact hl b hb
    · exact hX b hb
  have htake : (lit "ssh " ++ X).take 4 = lit "ssh " := List.take_left' rfl
  have hdrop : (lit "ssh " ++ X).drop 4 = X := List.drop_left' rfl
  have hyes : is_ssh (lit "ssh " ++ X) = true := (is_ssh_iff _ hbytes).mpr htake
  have hno : is_ssh X = false := by
    cases hs : is_ssh X
    · rfl
    · exact absurd ((is_ssh_iff X hX).mp hs) hns
  have hn1 : site_name (lit "ssh " ++ X) = X := by simp [site_name, hyes, hdrop]
  have hn2 : site_name X = X := by simp [site_name, hno]
  have e1 := write_passwords_for_site_with_events templates x environ key (lit "ssh " ++ X)
    counter
  have e2 := write_passwords_for_site_with_events templates x environ key X counter
  rw [hn1] at e1
  rw [hn2] at e2
  obtain ⟨r1, hr1, _⟩ := e1
  obtain ⟨r2, hr2, _⟩ := e2
  refine ⟨hyes, hno, hn1, hn2, ⟨r1, r2, hr1, hr2⟩, ?_⟩
  intro seed hseed hh
  have run1 := write_passwords_for_site_with_eq templates x environ key (lit "ssh " ++ X)
    counter
  have run2 := write_passwords_for_site_with_eq templates x environ key X counter
  rw [hn1, hh] at run1
  rw [hn2, hh] at run2
  have hgen := output_site_generic_spec seed hseed
  have hgen2 := hgen
  unfold output_site_generic at hgen2
  simp only [hyes, if_true] at run1
  simp only [hno, Bool.false_eq_true, if_false, hgen2] at run2
  refine ⟨run1, ?_, _, hgen, run2⟩
  rw [write_passwords_for_site, run1, output_site_ssh_eq x environ seed X (by omega)]
  split <;> simp

/-- C18, for the site name "github.com". -/
theorem C18_ssh_seed_is_site_seed_witness :
    is_ssh (lit "ssh " ++ lit "github.com") = true ∧ is_ssh (lit "github.com") = false
    ∧ site_name (lit "ssh " ++ lit "github.com") = (lit "github.com") ∧ site_name (lit
        "github.com") = lit "github.com"
    ∧ (∃ r1 r2 : List Event,
        (write_passwords_for_site (sample_calls (List.range 32) false)
            [] (List.replicate 64 0) (lit "ssh " ++ lit "github.com") 1).events
          = Event.hmac (site_message (lit "github.com") 1) (List.replicate 64 0) :: r1
        ∧ (write_passwords_for_site (sample_calls (List.range 32) false)
            [] (List.replicate 64 0) (lit "github.com") 1).events
          = Event.hmac (site_message (lit "github.com") 1) (List.replicate 64 0) :: r2)
    ∧ (∀ seed : Seed, seed.length = 32 →
        hmacsha256 (sample_calls (List.range 32) false)
            (site_message (lit "github.com") 1) (List.replicate 64 0) = .ok seed →
        write_passwords_for_site (sample_calls (List.range 32) false)
            [] (List.replicate 64 0) (lit "ssh " ++ lit "github.com") 1
          = ⟨Event.hmac (site_message (lit "github.com") 1) (List.replicate 64 0)
                :: (output_site_ssh (sample_calls (List.range 32) false) [] seed (lit
                    "github.com")).events,
              (output_site_ssh (sample_calls (List.range 32) false) [] seed (lit
                  "github.com")).fault⟩
        ∧ Event.agent_add (
              (sample_calls (List.range 32) false).seed_keypair seed).1 (
              (sample_calls (List.range 32) false).seed_keypair seed).2
              (lit "slpm+" ++ cstr (lit "github.com"))
            ∈ (write_passwords_for_site (sample_calls (List.range 32) false)
            [] (List.replicate 64 0) (lit "ssh " ++ lit "github.com") 1).events
        ∧ ∃ out, output_site_generic seed = .ok [Event.write 1 out]
            ∧ write_passwords_for_site (sample_calls (List.range 32) false)
            [] (List.replicate 64 0) (lit "github.com") 1
              = ⟨[Event.hmac (site_message (lit "github.com") 1) (List.replicate 64 0),
                  Event.write 1 out], none⟩) :=
  C18_ssh_seed_is_site_seed (sample_calls (List.range 32) false) [] (List.replicate 64 0)
    (lit "github.com") 1 (by decide) (by decide)

/-! ### The seed bytes that `output_site_generic` reads -/

/-- No compiled-in pattern has more than 20 symbols. -/
theorem pattern_length_le_20 : ∀ t ∈ templates, ∀ p ∈ t.templat, p.length ≤ 20 := by
  set_option maxRecDepth 1000000 in decide

/-- Two seeds that agree on the bytes 0 to 20 give every category the same password. -/
theorem spec_password_congr (seed1 seed2 : Seed)
    (hagree : ∀ i, i ≤ 20 → seed1.getD i 0 = seed2.getD i 0) (t : Template)
    (ht : t ∈ templates) : spec_password seed1 t = spec_password seed2 t := by
  have h0 : seed1.getD 0 0 = seed2.getD 0 0 := hagree 0 (by omega)
  have hcount : t.count ≠ 0 := (catalog_facts t ht).1
  have hmem := select_templat_mem seed2 t hcount
  have hlen := pattern_length_le_20 t ht _ hmem
  unfold select_templat Template.count at hmem hlen
  unfold spec_password
  rw [h0]
  unfold spec_pattern_password
  apply List.map_congr_left
  intro j hj
  rw [List.mem_range] at hj
  unfold spec_char
  rw [hagree (1 + j) (by omega)]

/-- C19: two 32-byte seeds that agree on the bytes 0 to 20 make `output_site_generic` write
the same six lines: no compiled-in pattern has more than 20 symbols (and one has 20), every
category selects its pattern from `seed[0]` and reads the bytes `seed[1 + j]` with
`1 + j <= 20` for its characters. -/
theorem C19_output_depends_on_bytes_0_to_20 (seed1 seed2 : Seed) (h1 : seed1.length = 32)
    (h2 : seed2.length = 32) (hagree : ∀ i, i ≤ 20 → seed1.getD i 0 = seed2.getD i 0) :
    output_site_generic seed1 = output_site_generic seed2
    ∧ (∀ t ∈ templates, ∀ p ∈ t.templat, p.length ≤ 20)
    ∧ (∃ t ∈ templates, ∃ p ∈ t.templat, p.length = 20)
    ∧ (∀ t ∈ templates,
        select_templat seed1 t = t.templat.getD (seed1.getD 0 0 % t.templat.length) ""
        ∧ select_templat seed1 t = select_templat seed2 t
        ∧ (∀ j, j < (select_templat seed1 t).length → 1 + j ≤ 20)
        ∧ ∀ buf : Buffer, pass_loop seed1 (select_templat seed1 t).toList 0 buf
            = pass_loop seed2 (select_templat seed2 t).toList 0 buf) := by
  have hpw : ∀ t ∈ templates, spec_password seed1 t = spec_password seed2 t :=
    fun t ht => spec_password_congr seed1 seed2 hagree t ht
  have hsel : ∀ t : Template, select_templat seed1 t = select_templat seed2 t := by
    intro t
    unfold select_templat
    rw [hagree 0 (by omega)]
  refine ⟨?_, pattern_length_le_20, by decide, ?_⟩
  · rw [output_site_generic_spec seed1 h1, output_site_generic_spec seed2 h2]
    have hmap : templates.map (spec_line seed1) = templates.map (spec_line seed2) := by
      apply List.map_congr_left
      intro t ht
      unfold spec_line
      rw [hpw t ht]
    rw [hmap]
  · intro t ht
    have hcount : t.count ≠ 0 := (catalog_facts t ht).1
    have hlen := pattern_length_le_20 t ht _ (select_templat_mem seed1 t hcount)
    refine ⟨rfl, hsel t, fun j hj => by omega, fun buf => ?_⟩
    rw [pass_loop_select seed1 t (by rw [h1]; exact template_ok_of_mem t ht) buf,
      pass_loop_select seed2 t (by rw [h2]; exact template_ok_of_mem t ht) buf, hpw t ht]

/-- C19, for two seeds that differ in each of the bytes 21 to 31. -/
theorem C19_output_depends_on_bytes_0_to_20_witness :
    output_site_generic (List.range 32) = output_site_generic (List.range 21 ++ List.replicate 11
        255)
    ∧ (∀ t ∈ templates, ∀ p ∈ t.templat, p.length ≤ 20)
    ∧ (∃ t ∈ templates, ∃ p ∈ t.templat, p.length = 20)
    ∧ (∀ t ∈ templates,
        select_templat (List.range 32) t = t.templat.getD ((List.range 32).getD 0 0 %
            t.templat.length) ""
        ∧ select_templat (List.range 32) t = select_templat (List.range 21 ++ List.replicate 11
            255) t
        ∧ (∀ j, j < (select_templat (List.range 32) t).length → 1 + j ≤ 20)
        ∧ ∀ buf : Buffer, pass_loop (List.range 32) (select_templat (List.range 32) t).toList 0 buf
            = pass_loop (List.range 21 ++ List.replicate 11 255) (select_templat (List.range 21 ++
                List.replicate 11 255) t).toList 0 buf) :=
  C19_output_depends_on_bytes_0_to_20 (List.range 32)
    (List.range 21 ++ List.replicate 11 255) (by decide) (by decide) (by decide)

/-! ### `atoi` -/

theorem schar_of_lt (c : Nat) (h : c < 128) : schar c = (c : Int) := by
  unfold schar
  have : c % 256 = c := Nat.mod_eq_of_lt (by omega)
  rw [this, if_pos h]

/-- For a byte, the test of the `atoi` loop is the test for a decimal digit. -/
theorem atoi_test_iff (c : Nat) (hc : c < 256) :
    (48 ≤ schar c ∧ schar c ≤ 57) ↔ is_digit c = true := by
  unfold schar is_digit
  have : c % 256 = c := Nat.mod_eq_of_lt hc
  rw [this, decide_eq_true_iff]
  split <;> omega

theorem decimal_fold_ge (ds : Bytes) :
    ∀ v : Nat, v ≤ ds.foldl (fun v c => v * 10 + (c - 48)) v := by
  induction ds with
  | nil => intro v; exact Nat.le_refl v
  | cons c ds ih =>
    intro v
    rw [List.foldl_cons]
    exact Nat.le_trans (by omega) (ih _)

/-- The loop of `atoi`, entered with a non-negative accumulator, returns the value of the
accumulator extended by the leading digits, as long as that value fits an `int`. -/
theorem atoi_loop_spec :
    ∀ (s : Bytes) (acc : Nat), (∀ b ∈ s, b < 256) →
      (s.takeWhile is_digit).foldl (fun v c => v * 10 + (c - 48)) acc < 2 ^ 31 →
      atoi_loop s (acc : Int)
        = (((s.takeWhile is_digit).foldl (fun v c => v * 10 + (c - 48)) acc : Nat) : Int) := by
  intro s
  induction s with
  | nil => intro acc _ _; rfl
  | cons c rest ih =>
    intro acc hb hv
    have hc : c < 256 := hb c (List.mem_cons_self _ _)
    have hrest : ∀ b ∈ rest, b < 256 := fun b h => hb b (List.mem_cons_of_mem _ h)
    rw [atoi_loop]
    by_cases hd : is_digit c = true
    · rw [if_pos ((atoi_test_iff c hc).mpr hd)]
      rw [List.takeWhile_cons_of_pos hd, List.foldl_cons] at hv ⊢
      have hge := decimal_fold_ge (rest.takeWhile is_digit) (acc * 10 + (c - 48))
      have hcd : 48 ≤ c ∧ c ≤ 57 := by simpa [is_digit] using hd
      have hstep : int32 (int32 (int32 ((acc : Int) * 10) + schar c) - 48)
          = ((acc * 10 + (c - 48) : Nat) : Int) := by
        rw [schar_of_lt c (by omega)]
        unfold int32
        omega
      rw [hstep]
      exact ih _ hrest hv
    · rw [if_neg (fun h => hd ((atoi_test_iff c hc).mp h))]
      rw [List.takeWhile_cons_of_neg hd]
      rfl

/-- What follows the leading digits does not matter to `atoi`. -/
theorem atoi_loop_takeWhile :
    ∀ (s : Bytes) (acc : Int), (∀ b ∈ s, b < 256) →
      atoi_loop s acc = atoi_loop (s.takeWhile is_digit) acc := by
  intro s
  induction s with
  | nil => intro acc _; rfl
  | cons c rest ih =>
    intro acc hb
    have hc : c < 256 := hb c (List.mem_cons_self _ _)
    have hrest : ∀ b ∈ rest, b < 256 := fun b h => hb b (List.mem_cons_of_mem _ h)
    by_cases hd : is_digit c = true
    · have ht := (atoi_test_iff c hc).mpr hd
      simp only [List.takeWhile_cons_of_pos hd, atoi_loop, if_pos ht]
      exact ih _ hrest
    · have ht : ¬ (48 ≤ schar c ∧ schar c ≤ 57) := fun h => hd ((atoi_test_iff c hc).mp h)
      simp only [List.takeWhile_cons_of_neg hd, atoi_loop, if_neg ht]

/-- C20: for a string of bytes whose leading run of the characters '0' to '9' denotes a
value below `2 ^ 31`, `atoi` returns that value, and 0 when the run is empty: 0 for the null
pointer, for the empty string and for a string that starts with another character (blanks
and signs included); what follows the first character that is no digit is ignored. -/
theorem C20_atoi (s : Bytes) (hb : ∀ b ∈ s, b < 256)
    (hv : decimal_value (s.takeWhile is_digit) < 2 ^ 31) :
    atoi s = (decimal_value (s.takeWhile is_digit) : Int)
    ∧ atoi_ptr (some s) = (decimal_value (s.takeWhile is_digit) : Int)
    ∧ atoi_ptr none = 0
    ∧ atoi [] = 0
    ∧ (s.takeWhile is_digit = [] → atoi s = 0)
    ∧ (∀ c rest, s = c :: rest → is_digit c = false → atoi s = 0)
    ∧ atoi s = atoi (s.takeWhile is_digit)
    ∧ atoi (lit " 12") = 0 ∧ atoi (lit "+12") = 0 ∧ atoi (lit "-12") = 0
    ∧ atoi (lit "12abc34") = 12 ∧ atoi (lit "007") = 7
    ∧ atoi (lit "2147483647") = 2147483647 := by
  have hmain : atoi s = (decimal_value (s.takeWhile is_digit) : Int) :=
    atoi_loop_spec s 0 hb hv
  have hex : atoi (lit " 12") = 0 ∧ atoi (lit "+12") = 0 ∧ atoi (lit "-12") = 0
      ∧ atoi (lit "12abc34") = 12 ∧ atoi (lit "007") = 7
      ∧ atoi (lit "2147483647") = 2147483647 := by
    set_option maxRecDepth 100000 in decide
  refine ⟨hmain, hmain, rfl, rfl, ?_, ?_, atoi_loop_takeWhile s 0 hb, hex⟩
  · intro h
    rw [hmain, h]
    rfl
  · intro c rest hs hd
    rw [hmain, hs, List.takeWhile_cons_of_neg (by simp [hd])]
    rfl

/-- C20, for the string "42 apples". -/
theorem C20_atoi_witness :
    (atoi (lit "42 apples") = (decimal_value ((lit "42 apples").takeWhile is_digit) : Int)
    ∧ atoi_ptr (some (lit "42 apples")) = (decimal_value ((lit "42 apples").takeWhile is_digit) :
        Int)
    ∧ atoi_ptr none = 0
    ∧ atoi [] = 0
    ∧ ((lit "42 apples").takeWhile is_digit = [] → atoi (lit "42 apples") = 0)
    ∧ (∀ c rest, lit "42 apples" = c :: rest → is_digit c = false → atoi (lit "42 apples") = 0)
    ∧ atoi (lit "42 apples") = atoi ((lit "42 apples").takeWhile is_digit)
    ∧ atoi (lit " 12") = 0 ∧ atoi (lit "+12") = 0 ∧ atoi (lit "-12") = 0
    ∧ atoi (lit "12abc34") = 12 ∧ atoi (lit "007") = 7
    ∧ atoi (lit "2147483647") = 2147483647)
    ∧ atoi (lit "42 apples") = 42 :=
  ⟨C20_atoi (lit "42 apples") (by decide) (by decide), by decide⟩

end Slpm
